import Mathlib

/-!
Verification of the YugaByte DB core sources:
redis_parser.cc (streaming wire-protocol parser and command translator),
pgsql_operation.cc (row operation planner), and the client routing and
session behaviour exercised by client-test.cc.
The C++ code is shallowly embedded: buffers become lists of characters,
protobuf records become structures, fallible calls return Except.
-/

/-- Decidable equality for Except results, used to evaluate the embedding on
concrete inputs. -/
instance exceptDecEq {e a : Type} [DecidableEq e] [DecidableEq a] :
    DecidableEq (Except e a) := fun x y =>
  match x, y with
  | .error e1, .error e2 =>
    if h : e1 = e2 then .isTrue (by rw [h])
    else .isFalse (fun hc => h (Except.error.inj hc))
  | .ok v1, .ok v2 =>
    if h : v1 = v2 then .isTrue (by rw [h])
    else .isFalse (fun hc => h (Except.ok.inj hc))
  | .error _, .ok _ => .isFalse (fun hc => Except.noConfusion hc)
  | .ok _, .error _ => .isFalse (fun hc => Except.noConfusion hc)

namespace YB

/-- Error categories of yb::Status that appear in the embedded sources. -/
inductive ErrCat
  | qlError
  | invalidArgument
  | invalidCommand
  | corruption
  | networkError
  | notFound
  | illegalState
  | serviceUnavailable
  deriving DecidableEq, Repr

/-- Embedding of a non-OK yb::Status: a category together with a message. -/
structure YBStatus where
  cat : ErrCat
  msg : String
  deriving DecidableEq, Repr

/-- Category of the error carried by an Except result, if any. -/
def errorCat {α : Type} (r : Except YBStatus α) : Option ErrCat :=
  match r with
  | .error e => some e.cat
  | .ok _ => none

/-- Result is a success. -/
def isOk {α : Type} (r : Except YBStatus α) : Bool :=
  match r with
  | .error _ => false
  | .ok _ => true

end YB

namespace Redis

open YB

/-- States of the RedisParser state machine (redis_parser.h / redis_parser.cc). -/
inductive ParserState
  | initial
  | singleLine
  | bulkHeader
  | bulkArgumentSize
  | bulkArgumentBody
  | finished
  deriving DecidableEq, Repr

/-- Embedding of RedisParser: the rope of I/O buffers is flattened to one list of
characters (offset arithmetic in the C++ code addresses the flattened stream),
together with the offsets and state of the machine.  The args vector is embedded
directly (args_ non-null). -/
structure RedisParser where
  source : List Char
  pos : Nat
  tokenBegin : Nat
  argumentsLeft : Nat
  currentArgumentSize : Nat
  state : ParserState
  incomplete : Bool
  args : List (List Char)
  deriving DecidableEq, Repr

/-- Constant kMaxNumberOfArgs = 1 << 20 from redis_parser.cc. -/
def kMaxNumberOfArgs : Int := 1048576

/-- Constant kLineEndLength = 2 from redis_parser.cc. -/
def kLineEndLength : Nat := 2

/-- Constant kMaxNumberLength = 25 from redis_parser.cc. -/
def kMaxNumberLength : Nat := 25

/-- Modelled from the spec: kMaxRedisValueSize is declared in
redis_constants.h, which is not under src/; the spec only requires
L in [0, kMaxRedisValueSize].  Its exact value (64 MB here) is irrelevant
to the claims. -/
def kMaxRedisValueSize : Int := 67108864

/-- Embedding of char_at_offset on the flattened stream. -/
def charAt (p : RedisParser) (i : Nat) : Char :=
  p.source.getD i (Char.ofNat 0)

/-- Position of the first newline character of a list, embedding memchr. -/
def memchrNewline : List Char → Option Nat
  | [] => none
  | c :: rest =>
    if c = '\n' then some 0 else (memchrNewline rest).map (· + 1)

/-- Offset of the first newline at offset start or later, as scanned by
RedisParser::FindEndOfLine across the io vecs. -/
def firstNewlineFrom (l : List Char) (start : Nat) : Option Nat :=
  (memchrNewline (l.drop start)).map (start + ·)

/-- Embedding of RedisParser::FindEndOfLine. -/
def findEndOfLine (p : RedisParser) : Except YBStatus RedisParser :=
  match firstNewlineFrom p.source p.pos with
  | none => .ok { p with incomplete := true }
  | some k =>
    if k = p.tokenBegin then
      .error ⟨.networkError, "End of line at the beginning of a Redis command"⟩
    else if charAt p (k - 1) ≠ '\r' then
      .error ⟨.networkError, "\\n is not prefixed with \\r"⟩
    else
      .ok { p with incomplete := false, pos := k + 1 }

/-- Modelled from the spec: util::CheckedStoll (yb/util/stol_utils is not under
src/) parses an ASCII decimal signed 64-bit integer, failing on an empty token,
on a non-digit character and on values outside the int64 range. -/
def checkedStoll (s : List Char) : Except YBStatus Int :=
  let signAndDigits : Int × List Char :=
    match s with
    | '-' :: rest => (-1, rest)
    | '+' :: rest => (1, rest)
    | _ => (1, s)
  let sign := signAndDigits.1
  let digits := signAndDigits.2
  if digits.isEmpty || !(digits.all Char.isDigit) then
    .error ⟨.invalidArgument, "CheckedStoll invalid input"⟩
  else
    let v : Int := sign * digits.foldl (fun acc c => acc * 10 + ((c.toNat : Int) - 48)) 0
    if v < -(2 ^ 63) || v ≥ 2 ^ 63 then
      .error ⟨.invalidArgument, "CheckedStoll out of int64 range"⟩
    else
      .ok v

/-- Embedding of RedisParser::ParseNumber: the number occupies the line from
token_begin (holding the expected one-character marker) to pos, bounds are
checked inclusively, producing Corruption on violation. -/
def parseNumber (p : RedisParser) (marker : Char) (lo hi : Int) :
    Except YBStatus Int :=
  if charAt p p.tokenBegin ≠ marker then
    .error ⟨.corruption, "Invalid character before number"⟩
  else
    let numberBegin := p.tokenBegin + 1
    let expectedStop := p.pos - kLineEndLength
    if expectedStop - numberBegin > kMaxNumberLength then
      .error ⟨.corruption, "Too long number"⟩
    else
      match checkedStoll ((p.source.drop numberBegin).take (expectedStop - numberBegin)) with
      | .error e => .error e
      | .ok v =>
        if v < lo || v > hi then
          .error ⟨.corruption, "Number out of expected range"⟩
        else
          .ok v

/-- Embedding of RedisParser::BulkHeader. -/
def bulkHeader (p : RedisParser) : Except YBStatus RedisParser := do
  let p1 ← findEndOfLine p
  if p1.incomplete then
    return p1
  let numArgs ← parseNumber p1 '*' 1 kMaxNumberOfArgs
  return { p1 with
    state := .bulkArgumentSize
    tokenBegin := p1.pos
    argumentsLeft := numArgs.toNat
    args := [] }

/-- Embedding of RedisParser::BulkArgumentSize. -/
def bulkArgumentSize (p : RedisParser) : Except YBStatus RedisParser := do
  let p1 ← findEndOfLine p
  if p1.incomplete then
    return p1
  let currentSize ← parseNumber p1 '$' 0 kMaxRedisValueSize
  return { p1 with
    state := .bulkArgumentBody
    tokenBegin := p1.pos
    currentArgumentSize := currentSize.toNat }

/-- Embedding of RedisParser::BulkArgumentBody. -/
def bulkArgumentBody (p : RedisParser) : Except YBStatus RedisParser :=
  let desired := p.tokenBegin + p.currentArgumentSize + kLineEndLength
  if desired > p.source.length then
    .ok { p with incomplete := true, pos := p.source.length }
  else if charAt p (desired - 1) ≠ '\n' || charAt p (desired - 2) ≠ '\r' then
    .error ⟨.networkError, "No \\r\\n after bulk"⟩
  else
    let left := p.argumentsLeft - 1
    .ok { p with
      args := p.args ++ [(p.source.drop p.tokenBegin).take p.currentArgumentSize]
      argumentsLeft := left
      pos := desired
      tokenBegin := desired
      state := if left = 0 then .finished else .bulkArgumentSize }

/-- Characters treated as spaces by isspace in the C locale. -/
def redisIsSpace (c : Char) : Bool :=
  c = ' ' || c = '\t' || c = '\n' || c = Char.ofNat 11 || c = Char.ofNat 12 || c = '\r'

/-- Leading-whitespace skipping loop of RedisParser::SingleLine. -/
def skipSpaces (src : List Char) (start finish : Nat) : Nat :=
  if h : start < finish ∧ redisIsSpace (src.getD start (Char.ofNat 0)) then
    skipSpaces src (start + 1) finish
  else
    start
termination_by finish - start
decreasing_by
  exact Nat.sub_lt_sub_left h.1 (Nat.lt_succ_self start)

/-- Modelled from the spec: util::SplitArgs (yb/util/split is not under src/)
splits the trimmed line into whitespace-separated argument slices; the quoting
errors it can raise as InvalidArgument are not modelled. -/
def splitArgs (l : List Char) : Except YBStatus (List (List Char)) :=
  .ok ((((String.mk l).split redisIsSpace).filter (fun s => s ≠ "")).map String.toList)

/-- Embedding of RedisParser::SingleLine. -/
def singleLine (p : RedisParser) : Except YBStatus RedisParser := do
  let p1 ← findEndOfLine p
  if p1.incomplete then
    return p1
  let finish := p1.pos - 2
  let start := skipSpaces p1.source p1.tokenBegin finish
  if start ≥ finish then
    throw ⟨.invalidArgument, "Empty line"⟩
  let parsedArgs ← splitArgs ((p1.source.drop start).take (finish - start))
  return { p1 with state := .finished, args := parsedArgs }

/-- Embedding of RedisParser::Initial. -/
def initialStep (p : RedisParser) : RedisParser :=
  { p with
    tokenBegin := p.pos
    state := if charAt p p.pos = '*' then .bulkHeader else .singleLine }

/-- Embedding of RedisParser::AdvanceToNextToken. -/
def advanceToNextToken (p : RedisParser) : Except YBStatus RedisParser :=
  match p.state with
  | .initial => .ok (initialStep p)
  | .singleLine => singleLine p
  | .bulkHeader => bulkHeader p
  | .bulkArgumentSize => bulkArgumentSize p
  | .bulkArgumentBody => bulkArgumentBody p
  | .finished => .error ⟨.illegalState, "Should not be in FINISHED state during NextToken"⟩

/-- Embedding of RedisParser::NextCommand.  The C++ while loop is driven by a
fuel argument; every iteration other than the two leaving INITIAL and a bulk
body advances pos past a newline, so fuel 2 * source.length + 2 always
suffices.  The returned number is the offset one past the parsed command, or 0
when the data is incomplete. -/
def nextCommand : Nat → RedisParser → Except YBStatus (Nat × RedisParser)
  | 0, p => .ok (0, p)
  | fuel + 1, p =>
    if p.pos = p.source.length then
      .ok (0, p)
    else
      match advanceToNextToken { p with incomplete := false } with
      | .error e => .error e
      | .ok p1 =>
        if p1.incomplete then
          .ok (0, { p1 with pos := p1.source.length })
        else if p1.state = .finished then
          .ok (p1.pos, { p1 with state := .initial })
        else
          nextCommand fuel p1

/-- Redis value types (common/redis_protocol.pb). -/
inductive RedisDataType
  | string
  | hash
  | timeseries
  | sortedset
  | set
  | noneType
  deriving DecidableEq, Repr

/-- Write modes of a SET request (REDIS_WRITEMODE_UPDATE for XX,
REDIS_WRITEMODE_INSERT for NX). -/
inductive RedisWriteMode
  | update
  | insert
  deriving DecidableEq, Repr

/-- Subkeys of a RedisKeyValuePB.  Double subkeys keep the verbatim score token,
see checkedStold. -/
inductive RedisSubKey
  | stringSubkey (s : String)
  | timestampSubkey (t : Int)
  | doubleSubkey (d : String)
  deriving DecidableEq, Repr

/-- Embedding of RedisKeyValuePB: key, type, and the parallel subkey and value
arrays filled by add_subkey and add_value. -/
structure RedisKeyValue where
  key : String := ""
  type : Option RedisDataType := none
  subkeys : List RedisSubKey := []
  values : List String := []
  deriving DecidableEq, Repr

/-- Update options of SortedSetOptionsPB; the proto default is NONE. -/
inductive ZUpdateOptions
  | noneOpt
  | nx
  | xx
  deriving DecidableEq, Repr

/-- Embedding of SortedSetOptionsPB. -/
structure SortedSetOptions where
  ch : Bool := false
  incr : Bool := false
  updateOptions : ZUpdateOptions := .noneOpt
  deriving DecidableEq, Repr

/-- Embedding of RedisSetRequestPB together with the sorted-set options. -/
structure RedisSetRequest where
  ttl : Option Int := none
  mode : Option RedisWriteMode := none
  expectOkResponse : Bool := false
  sortedSetOptions : SortedSetOptions := {}
  deriving DecidableEq, Repr

/-- Embedding of the parts of RedisWriteRequestPB that the SET-family parsers
populate. -/
structure RedisWriteRequest where
  keyValue : RedisKeyValue := {}
  setRequest : RedisSetRequest := {}
  deriving DecidableEq, Repr

/-- Modelled from the spec: kRedisMinTtlSeconds from redis_constants.h (not
under src/); a TTL is at least one second. -/
def kRedisMinTtlSeconds : Int := 1

/-- Modelled from the spec: kRedisMaxTtlSeconds from redis_constants.h (not
under src/): the largest TTL whose millisecond form still fits in a signed
64-bit integer. -/
def kRedisMaxTtlSeconds : Int := (2 ^ 63 - 1) / 1000

/-- Constant MonoTime::kMillisecondsPerSecond. -/
def kMillisecondsPerSecond : Int := 1000

/-- Embedding of util ToUpperCase on the character list (ASCII). -/
def toUpperStr (s : String) : String :=
  String.mk (s.toList.map Char.toUpper)

/-- Embedding of the local helper ParseInt64 of redis_parser.cc: CheckedStoll
with failures rewrapped as InvalidArgument. -/
def parseInt64 (s : String) (field : String) : Except YBStatus Int :=
  match checkedStoll s.toList with
  | .error _ => .error ⟨.invalidArgument, field ++ " field is not a valid number"⟩
  | .ok v => .ok v

/-- Case-insensitive ASCII comparison, embedding boost::iequals. -/
def iequals (a b : String) : Bool :=
  a.toList.map Char.toLower = b.toList.map Char.toLower

/-- Flag-scanning loop of ParseSet.  The C++ while loop walks idx over the
argument vector; here the remaining arguments are consumed structurally.  An
argument of length other than two leaves upper_arg empty and therefore falls
into the unidentified-argument branch, as in the source. -/
def parseSetFlags : List String → RedisSetRequest → Except YBStatus RedisSetRequest
  | [], req => .ok req
  | a :: rest, req =>
    let upperArg := if a.length = 2 then toUpperStr a else ""
    if upperArg = "EX" || upperArg = "PX" then
      match rest with
      | [] => .error ⟨.invalidCommand, "Expected TTL field after the EX flag, no value found"⟩
      | t :: rest2 =>
        match parseInt64 t "TTL" with
        | .error e => .error e
        | .ok ttlVal =>
          if ttlVal < kRedisMinTtlSeconds || ttlVal > kRedisMaxTtlSeconds then
            .error ⟨.invalidCommand, "TTL field is not within valid bounds"⟩
          else
            let msPerUnit : Int := if upperArg = "EX" then kMillisecondsPerSecond else 1
            parseSetFlags rest2 { req with ttl := some (ttlVal * msPerUnit) }
    else if upperArg = "XX" then
      parseSetFlags rest { req with mode := some .update }
    else if upperArg = "NX" then
      parseSetFlags rest { req with mode := some .insert }
    else
      .error ⟨.invalidCommand, "Unidentified argument found while parsing set command"⟩

/-- Embedding of ParseSet.  The command dispatch table guarantees at least a
command name, a key and a value; shorter vectors never reach ParseSet and are
mapped to the generic arity error. -/
def parseSet (args : List String) : Except YBStatus RedisWriteRequest :=
  match args with
  | _cmd :: key :: value :: flags =>
    if key = "" then
      .error ⟨.invalidCommand, "A SET request must have a non empty key field"⟩
    else
      match parseSetFlags flags {} with
      | .error e => .error e
      | .ok setReq =>
        .ok { keyValue := { key := key, type := some .string, subkeys := [], values := [value] }
              setRequest := setReq }
  | _ => .error ⟨.invalidCommand, "A SET request must have a key and a value"⟩

/-- Embedding of ParseZAddOptions: scans flag tokens, records them in the
options, and stops at the first non-flag token.  Returns the options together
with the number of consumed tokens (the idx advance). -/
def parseZAddOptions : List String → SortedSetOptions →
    Except YBStatus (SortedSetOptions × Nat)
  | [], opts => .ok (opts, 0)
  | a :: rest, opts =>
    if iequals a "CH" then
      (parseZAddOptions rest { opts with ch := true }).map (fun r => (r.1, r.2 + 1))
    else if iequals a "INCR" then
      (parseZAddOptions rest { opts with incr := true }).map (fun r => (r.1, r.2 + 1))
    else if iequals a "NX" then
      if opts.updateOptions = .xx then
        .error ⟨.invalidArgument, "XX and NX options at the same time are not compatible"⟩
      else
        (parseZAddOptions rest { opts with updateOptions := .nx }).map (fun r => (r.1, r.2 + 1))
    else if iequals a "XX" then
      if opts.updateOptions = .nx then
        .error ⟨.invalidArgument, "XX and NX options at the same time are not compatible"⟩
      else
        (parseZAddOptions rest { opts with updateOptions := .xx }).map (fun r => (r.1, r.2 + 1))
    else
      .ok (opts, 0)

/-- Modelled from the spec: kExpireAt and kExpireIn are declared in
redis_constants.h, which is not under src/; the spec describes the timeseries
flags as EXPIREAT and EXPIREIN. -/
def kExpireAt : String := "EXPIREAT"

/-- Modelled from the spec: see kExpireAt. -/
def kExpireIn : String := "EXPIREIN"

/-- Insert-or-update on the association list embedding std::unordered_map:
assignment through operator[] replaces the value of an existing key and
appends a fresh key. -/
def upsert (m : List (String × String)) (k v : String) : List (String × String) :=
  match m with
  | [] => [(k, v)]
  | (k0, v0) :: rest => if k0 = k then (k0, v) :: rest else (k0, v0) :: upsert rest k v

/-- Pairwise kv_map construction loop of ParseHMSetLikeCommands.  For sorted
sets the map goes from member to score; otherwise from field to value.  The
ambient clock (GetCurrentTimeMicros scaled to seconds) is passed explicitly as
nowSeconds.  A trailing odd token is unreachable after the parity check and is
mapped to an error. -/
def buildKvMap (type : RedisDataType) (nowSeconds : Int) :
    List String → List (String × String) → Option Int →
    Except YBStatus (List (String × String) × Option Int)
  | [], m, ttl => .ok (m, ttl)
  | [_], _, _ => .error ⟨.invalidArgument, "odd number of trailing arguments"⟩
  | f :: v :: rest, m, ttl =>
    if (f = kExpireAt || f = kExpireIn) && type = .timeseries then
      if rest ≠ [] then
        .error ⟨.invalidCommand, "expire flag should be at the end of the command"⟩
      else
        match checkedStoll v.toList with
        | .error e => .error e
        | .ok temp =>
          let t := if f = kExpireIn then temp else temp - nowSeconds
          if t > kRedisMaxTtlSeconds || t < kRedisMinTtlSeconds then
            .error ⟨.invalidCommand, "TTL needs to be in the valid range"⟩
          else
            buildKvMap type nowSeconds rest m (some (t * kMillisecondsPerSecond))
    else if type = .sortedset then
      buildKvMap type nowSeconds rest (upsert m v f) ttl
    else
      buildKvMap type nowSeconds rest (upsert m f v) ttl

/-- Modelled from the spec: util::CheckedStold (yb/util/stol_utils is not under
src/) decodes scores as finite doubles.  Floating point is outside the
embedding and the claims depend only on which token is stored, so the verbatim
token is kept as the parsed value. -/
def checkedStold (s : String) : Except YBStatus String :=
  .ok s

/-- Embedding of add_string_subkey. -/
def addStringSubkey (s : String) : Except YBStatus RedisSubKey :=
  .ok (.stringSubkey s)

/-- Embedding of add_timestamp_subkey. -/
def addTimestampSubkey (s : String) : Except YBStatus RedisSubKey :=
  (checkedStoll s.toList).map .timestampSubkey

/-- Embedding of add_double_subkey. -/
def addDoubleSubkey (s : String) : Except YBStatus RedisSubKey :=
  (checkedStold s).map .doubleSubkey

/-- Emission loop of ParseHMSetLikeCommands over the kv_map: for sorted sets
the stored mapping is member to score, so subkey and value are swapped back
when the request is built. -/
def emitKvMap (addSubKey : String → Except YBStatus RedisSubKey)
    (type : RedisDataType) :
    List (String × String) → RedisKeyValue → Except YBStatus RedisKeyValue
  | [], kv => .ok kv
  | (k, v) :: rest, kv =>
    if type = .sortedset then
      match addSubKey v with
      | .error e => .error e
      | .ok sk =>
        emitKvMap addSubKey type rest
          { kv with subkeys := kv.subkeys ++ [sk], values := kv.values ++ [k] }
    else
      match addSubKey k with
      | .error e => .error e
      | .ok sk =>
        emitKvMap addSubKey type rest
          { kv with subkeys := kv.subkeys ++ [sk], values := kv.values ++ [v] }

/-- Embedding of ParseHMSetLikeCommands. -/
def parseHMSetLikeCommands (args : List String) (type : RedisDataType)
    (addSubKey : String → Except YBStatus RedisSubKey) (nowSeconds : Int) :
    Except YBStatus RedisWriteRequest :=
  if args.length < 4 || (args.length % 2 = 1 && type = .hash) then
    .error ⟨.invalidArgument, "wrong number of arguments"⟩
  else do
    let baseKv : RedisKeyValue :=
      { key := args.getD 1 "", type := some type, subkeys := [], values := [] }
    let optsConsumed ←
      if type = .sortedset then parseZAddOptions (args.drop 2) {}
      else pure (({} : SortedSetOptions), 0)
    let opts := optsConsumed.1
    let start := 2 + optsConsumed.2
    if type = .sortedset && opts.incr && args.length - start ≠ 2 then
      throw ⟨.invalidArgument, "wrong number of tokens after INCR flag specified"⟩
    if (args.length - start) % 2 = 1 || args.length - start = 0 then
      throw ⟨.invalidArgument, "Expect even and non-zero number of arguments"⟩
    let kvMapTtl ← buildKvMap type nowSeconds (args.drop start) [] none
    let kv ← emitKvMap addSubKey type kvMapTtl.1 baseKv
    return { keyValue := kv
             setRequest :=
               { ttl := kvMapTtl.2
                 mode := none
                 expectOkResponse := type = .hash
                 sortedSetOptions := opts } }

/-- Embedding of ParseHMSet. -/
def parseHMSet (args : List String) : Except YBStatus RedisWriteRequest :=
  parseHMSetLikeCommands args .hash addStringSubkey 0

/-- Embedding of ParseTsAdd; the ambient clock is passed explicitly. -/
def parseTsAdd (args : List String) (nowSeconds : Int) :
    Except YBStatus RedisWriteRequest :=
  parseHMSetLikeCommands args .timeseries addTimestampSubkey nowSeconds

/-- Embedding of ParseZAdd. -/
def parseZAdd (args : List String) : Except YBStatus RedisWriteRequest :=
  parseHMSetLikeCommands args .sortedset addDoubleSubkey 0

end Redis

namespace Pgsql

open YB

/-- Column identifiers; system pseudo-columns are negative. -/
abbrev ColumnId := Int

/-- Embedding of QLValuePB for the value shapes the planner manipulates. -/
inductive QLValue
  | nullValue
  | intValue (i : Int)
  | boolValue (b : Bool)
  | stringValue (s : String)
  | binaryValue (s : String)
  deriving DecidableEq, Repr

/-- Embedding of QLValue::bool_value: the default (false) on a non-bool. -/
def qlBool : QLValue → Bool
  | .boolValue b => b
  | _ => false

/-- Embedding of QLTableRow: the column values the row read produced.
IsEmpty holds when no column is present. -/
abbrev QLTableRow := List (ColumnId × QLValue)

/-- Modelled from the spec: expression evaluation (EvalExpr and EvalColumnRef
live in the external QL expression executor, not under src/).  The write
planner only ever sees scalar-insert expressions, embedded as constants, and
column references, which read the value from the row, null when absent. -/
inductive PgsqlExpr
  | constant (v : QLValue)
  | columnRef (id : ColumnId)
  deriving DecidableEq, Repr

/-- Evaluation of an embedded expression against a row. -/
def evalExpr (e : PgsqlExpr) (row : QLTableRow) : QLValue :=
  match e with
  | .constant v => v
  | .columnRef id => ((row.lookup id).getD .nullValue)

/-- Embedding of EvalColumnRef: the existing value of a column in the row. -/
def evalColumnRef (id : ColumnId) (row : QLTableRow) : QLValue :=
  (row.lookup id).getD .nullValue

/-- Embedding of PgsqlColumnValuePB: an optional column id and the write
expression. -/
structure PgsqlColumnValue where
  columnId : Option ColumnId
  expr : PgsqlExpr
  deriving DecidableEq, Repr

/-- Statement types of PgsqlWriteRequestPB. -/
inductive PgsqlStmtType
  | insert
  | update
  | delete
  deriving DecidableEq, Repr

/-- Embedding of the fields of PgsqlWriteRequestPB the planner reads. -/
structure PgsqlWriteRequest where
  stmtType : PgsqlStmtType := .insert
  hasYbctid : Bool := false
  columnValues : List PgsqlColumnValue := []
  columnNewValues : List PgsqlColumnValue := []
  whereExpr : Option PgsqlExpr := none
  targets : List PgsqlExpr := []
  deriving DecidableEq, Repr

/-- Embedding of the schema as the set of declared column ids
(column_by_id succeeds exactly on these). -/
structure Schema where
  columns : List ColumnId := []
  deriving DecidableEq, Repr

/-- Sub-path of a write record below the row key. -/
inductive SubKeyPath
  | livenessColumn
  | column (id : ColumnId)
  deriving DecidableEq, Repr

/-- Embedding of DocPath: the encoded row key plus the sub-path. -/
structure DocPath where
  key : String
  sub : SubKeyPath
  deriving DecidableEq, Repr

/-- Records appended to the doc write batch.  A TTL of none stands for
Value::kMaxTtl and a user timestamp of none for kInvalidUserTimestamp, the
values all three apply paths pass. -/
inductive WriteRecord
  | setPrimitive (path : DocPath) (v : QLValue) (ttl : Option Int) (userTimestamp : Option Int)
  | insertSubDocument (path : DocPath) (v : QLValue) (ttl : Option Int) (userTimestamp : Option Int)
  | deleteSubDoc (key : String)
  deriving DecidableEq, Repr

/-- Statuses of PgsqlResponsePB. -/
inductive PgsqlStatus
  | ok
  | runtimeError
  | schemaVersionMismatch
  | qlErrorStatus
  deriving DecidableEq, Repr

/-- Embedding of PgsqlResponsePB. -/
structure PgsqlResponse where
  status : Option PgsqlStatus := none
  skipped : Bool := false
  pagingState : Option String := none
  deriving DecidableEq, Repr

/-- Embedding of PgsqlWriteOperation after Init: the request, the schema and
the encoded doc keys.  Init always sets the range doc key on success; the
hashed doc key exists only when no range portion and no ybctid is given. -/
structure PgsqlWriteOp where
  request : PgsqlWriteRequest := {}
  schema : Schema := {}
  encodedHashedDocKey : Option String := none
  encodedRangeDocKey : Option String := none
  deriving DecidableEq, Repr

/-- The outcome of one Apply call: the final status (none embeds Status::OK),
the records this operation appended to the doc write batch (earlier appends
survive a mid-loop failure, as the C++ batch is mutated in place), the
response, and the result rows. -/
structure WriteApplyResult where
  result : Option YBStatus := none
  records : List WriteRecord := []
  response : PgsqlResponse := {}
  resultRows : List (List QLValue) := []
  deriving DecidableEq, Repr

/-- Modelled from the spec: PgSystemAttrNum::kYBTupleId, the tuple-id
pseudo-column number (declared outside src/). -/
def kYBTupleId : ColumnId := -8

/-- Embedding of PgsqlWriteOperation::PopulateResultSet: targets carrying a
column id are evaluated (the tuple-id pseudo-column yields the encoded range
doc key as a binary value); other targets leave the default null. -/
def populateResultSet (op : PgsqlWriteOp) (tableRow : QLTableRow) : List QLValue :=
  op.request.targets.map fun e =>
    match e with
    | .columnRef id =>
      if id = kYBTupleId then .binaryValue (op.encodedRangeDocKey.getD "")
      else evalExpr (.columnRef id) tableRow
    | .constant _ => .nullValue

/-- Column loop of ApplyInsert: each column value must carry a column id known
to the schema; its expression is evaluated and an insert record appended at
(range_doc_key, column_id).  Returns the first error, if any, together with
the records appended so far. -/
def insertColumnValues (schema : Schema) (rangeKey : String) (tableRow : QLTableRow) :
    List PgsqlColumnValue → List WriteRecord → Option YBStatus × List WriteRecord
  | [], acc => (none, acc)
  | cv :: rest, acc =>
    match cv.columnId with
    | none => (some ⟨.invalidArgument, "column id missing"⟩, acc)
    | some cid =>
      if schema.columns.contains cid then
        insertColumnValues schema rangeKey tableRow rest
          (acc ++ [.insertSubDocument ⟨rangeKey, .column cid⟩ (evalExpr cv.expr tableRow) none none])
      else
        (some ⟨.notFound, "column not found in schema"⟩, acc)

/-- Embedding of PgsqlWriteOperation::ApplyInsert.  The row read by
ReadColumns through the external iterator is an input. -/
def applyInsert (op : PgsqlWriteOp) (tableRow : QLTableRow) : WriteApplyResult :=
  if !tableRow.isEmpty then
    { result := some ⟨.qlError, "Duplicate key found in primary key or unique index"⟩ }
  else
    let livenessRecords : List WriteRecord :=
      match op.encodedRangeDocKey with
      | some k => [.setPrimitive ⟨k, .livenessColumn⟩ .nullValue none none]
      | none => []
    let stRecs := insertColumnValues op.schema (op.encodedRangeDocKey.getD "") tableRow
      op.request.columnValues livenessRecords
    match stRecs.1 with
    | some e => { result := some e, records := stRecs.2 }
    | none =>
      { result := none
        records := stRecs.2
        response := { status := some .ok }
        resultRows := [populateResultSet op tableRow] }

/-- Column loop of the ybctid branch of ApplyUpdate: the new value is compared
with the existing one and an insert record is appended only when they differ,
clearing the skipped flag. -/
def updateColumnsCompare (schema : Schema) (rangeKey : String) (tableRow : QLTableRow) :
    List PgsqlColumnValue → List WriteRecord → Bool →
    Option YBStatus × List WriteRecord × Bool
  | [], acc, skipped => (none, acc, skipped)
  | cv :: rest, acc, skipped =>
    match cv.columnId with
    | none => (some ⟨.invalidArgument, "column id missing"⟩, acc, skipped)
    | some cid =>
      if schema.columns.contains cid then
        let exprResult := evalExpr cv.expr tableRow
        if exprResult ≠ evalColumnRef cid tableRow then
          updateColumnsCompare schema rangeKey tableRow rest
            (acc ++ [.insertSubDocument ⟨rangeKey, .column cid⟩ exprResult none none]) false
        else
          updateColumnsCompare schema rangeKey tableRow rest acc skipped
      else
        (some ⟨.notFound, "column not found in schema"⟩, acc, skipped)

/-- Column loop of the non-ybctid branch of ApplyUpdate: every new column
value is written without comparing with the existing value, and the skipped
flag is cleared on every emission. -/
def updateColumnsAll (schema : Schema) (rangeKey : String) (tableRow : QLTableRow) :
    List PgsqlColumnValue → List WriteRecord → Bool →
    Option YBStatus × List WriteRecord × Bool
  | [], acc, skipped => (none, acc, skipped)
  | cv :: rest, acc, _skipped =>
    match cv.columnId with
    | none => (some ⟨.invalidArgument, "column id missing"⟩, acc, _skipped)
    | some cid =>
      if schema.columns.contains cid then
        updateColumnsAll schema rangeKey tableRow rest
          (acc ++ [.insertSubDocument ⟨rangeKey, .column cid⟩ (evalExpr cv.expr tableRow) none none])
          false
      else
        (some ⟨.notFound, "column not found in schema"⟩, acc, _skipped)

/-- Embedding of PgsqlWriteOperation::ApplyUpdate. -/
def applyUpdate (op : PgsqlWriteOp) (tableRow : QLTableRow) : WriteApplyResult :=
  let rangeKey := op.encodedRangeDocKey.getD ""
  let stRecsSkipped :=
    if op.request.hasYbctid then
      updateColumnsCompare op.schema rangeKey tableRow op.request.columnNewValues [] true
    else
      let isMatch :=
        match op.request.whereExpr with
        | some e => qlBool (evalExpr e tableRow)
        | none => true
      if isMatch then
        updateColumnsAll op.schema rangeKey tableRow op.request.columnNewValues [] true
      else
        (none, [], true)
  match stRecsSkipped.1 with
  | some e => { result := some e, records := stRecsSkipped.2.1 }
  | none =>
    { result := none
      records := stRecsSkipped.2.1
      response := { status := some .ok, skipped := stRecsSkipped.2.2 }
      resultRows := [populateResultSet op tableRow] }

/-- Embedding of PgsqlWriteOperation::ApplyDelete.  The CHECK on an empty
column_values list is a process abort in C++; requests violating it are out of
scope and mapped to an error here. -/
def applyDelete (op : PgsqlWriteOp) (tableRow : QLTableRow) : WriteApplyResult :=
  if op.request.columnValues.length ≠ 0 then
    { result := some ⟨.illegalState, "WHERE clause condition is not yet fully supported"⟩ }
  else
    { result := none
      records := [.deleteSubDoc (op.encodedRangeDocKey.getD "")]
      response := { status := some .ok }
      resultRows := [populateResultSet op tableRow] }

/-- Embedding of PgsqlWriteOperation::Apply dispatching on the statement
type. -/
def apply (op : PgsqlWriteOp) (tableRow : QLTableRow) : WriteApplyResult :=
  match op.request.stmtType with
  | .insert => applyInsert op tableRow
  | .update => applyUpdate op tableRow
  | .delete => applyDelete op tableRow

/-- Embedding of the fields of PgsqlReadRequestPB that Execute reads.  The
index-request path needs the external secondary iterator and is not part of
the embedded requests. -/
structure PgsqlReadRequest where
  limit : Option Nat := none
  whereExpr : Option PgsqlExpr := none
  isAggregate : Bool := false
  targets : List PgsqlExpr := []
  deriving DecidableEq, Repr

/-- Outcome of PgsqlReadOperation::Execute. -/
structure ReadExecResult where
  resultRows : List (List QLValue) := []
  response : PgsqlResponse := {}
  deriving DecidableEq, Repr

/-- The WHERE filter of the fetch loop. -/
def isMatchRow (req : PgsqlReadRequest) (row : QLTableRow) : Bool :=
  match req.whereExpr with
  | some e => qlBool (evalExpr e row)
  | none => true

/-- Embedding of PgsqlReadOperation::PopulateResultSet: every target is
evaluated on the row. -/
def populateReadRow (req : PgsqlReadRequest) (row : QLTableRow) : List QLValue :=
  req.targets.map (fun e => evalExpr e row)

/-- The loop guard rsrow_count < row_count_limit; a limit of none embeds the
size_t maximum, which a finite row stream never reaches. -/
def belowLimit (cnt : Nat) (lim : Option Nat) : Bool :=
  match lim with
  | none => true
  | some n => cnt < n

/-- The paging test rsrow_count >= row_count_limit. -/
def atLimit (cnt : Nat) (lim : Option Nat) : Bool :=
  match lim with
  | none => false
  | some n => cnt ≥ n

/-- Fetch loop of PgsqlReadOperation::Execute over the iterator stream.
Aggregate accumulation happens in the external expression executor; the
embedding keeps the targets evaluated on the last matched row, which is all
the claims need since they only count emitted rows.  Returns the result rows,
the match count, the aggregate accumulator and the rows the iterator has not
consumed. -/
def executeLoop (req : PgsqlReadRequest) (lim : Option Nat) :
    List QLTableRow → List (List QLValue) → Nat → List QLValue →
    List (List QLValue) × Nat × List QLValue × List QLTableRow
  | [], rs, mc, aggr => (rs, mc, aggr, [])
  | r :: rest, rs, mc, aggr =>
    if belowLimit rs.length lim then
      if isMatchRow req r then
        if req.isAggregate then
          executeLoop req lim rest rs (mc + 1) (req.targets.map (fun e => evalExpr e r))
        else
          executeLoop req lim rest (rs ++ [populateReadRow req r]) (mc + 1) aggr
      else
        executeLoop req lim rest rs mc aggr
    else
      (rs, mc, aggr, r :: rest)

/-- Modelled from the spec: SetPagingStateIfNecessary belongs to the Row
Iterator Bridge (doc_rowwise_iterator, not under src/); it attaches a
continuation token exactly when the iterator was not exhausted. -/
def setPagingStateIfNecessary (remaining : List QLTableRow) (resp : PgsqlResponse) :
    PgsqlResponse :=
  if remaining.isEmpty then resp else { resp with pagingState := some "continuation-token" }

/-- Embedding of PgsqlReadOperation::Execute on the stream of rows the
iterator yields. -/
def execute (req : PgsqlReadRequest) (rows : List QLTableRow) : ReadExecResult :=
  if req.limit = some 0 then
    {}
  else
    let out := executeLoop req req.limit rows [] 0 []
    let rs := out.1
    let matchCount := out.2.1
    let aggr := out.2.2.1
    let remaining := out.2.2.2
    let rsFinal := if req.isAggregate && matchCount > 0 then rs ++ [aggr] else rs
    let resp :=
      if atLimit rsFinal.length req.limit && !req.isAggregate then
        setPagingStateIfNecessary remaining {}
      else
        ({} : PgsqlResponse)
    { resultRows := rsFinal, response := resp }

end Pgsql

namespace Client

open YB

/-- Modelled from the spec: replica roles of a remote tablet (the meta-cache
classes live in client-internal code, not under src/; only the tests are
present). -/
inductive ReplicaRole
  | leader
  | follower
  | learner
  deriving DecidableEq, Repr

/-- Modelled from the spec: a remote tablet server, identified by its
permanent uuid. -/
structure RemoteTabletServer where
  uuid : String
  deriving DecidableEq, Repr

/-- Modelled from the spec: one replica descriptor of a remote tablet,
carrying the server, its role and whether MarkTSFailed has marked it
failed. -/
structure ReplicaDesc where
  ts : RemoteTabletServer
  role : ReplicaRole
  failed : Bool
  deriving DecidableEq, Repr

/-- Modelled from the spec: a remote tablet record with its ordered replica
list. -/
structure RemoteTablet where
  replicas : List ReplicaDesc
  deriving DecidableEq, Repr

/-- Selection policies of YBClient. -/
inductive ReplicaSelection
  | leaderOnly
  | closestReplica
  | firstReplica
  deriving DecidableEq, Repr

/-- Modelled from the spec: a replica can be returned only when it is neither
in the blacklist nor marked failed (marking every replica failed is
indistinguishable from blacklisting all for selection purposes). -/
def selectable (blacklist : List String) (r : ReplicaDesc) : Bool :=
  !(blacklist.contains r.ts.uuid) && !r.failed

/-- Modelled from the spec: YBClient::Data::GetTabletServer (client-internal
code not under src/).  LEADER_ONLY returns the current leader when usable;
CLOSEST_REPLICA returns a usable replica preferring locality, which collapses
to the first usable one absent locality data; FIRST_REPLICA returns the first
usable replica in the ordered list.  With no usable candidate every policy
fails with ServiceUnavailable. -/
def getTabletServer (rt : RemoteTablet) (selection : ReplicaSelection)
    (blacklist : List String) : Except YBStatus RemoteTabletServer :=
  let candidates := rt.replicas.filter (selectable blacklist)
  match selection with
  | .leaderOnly =>
    match candidates.find? (fun r => r.role = .leader) with
    | some r => .ok r.ts
    | none => .error ⟨.serviceUnavailable, "No leader available"⟩
  | .closestReplica =>
    match candidates.head? with
    | some r => .ok r.ts
    | none => .error ⟨.serviceUnavailable, "No replica available"⟩
  | .firstReplica =>
    match candidates.head? with
    | some r => .ok r.ts
    | none => .error ⟨.serviceUnavailable, "No replica available"⟩

/-- Modelled from the spec: the session state, reduced to the identifiers of
buffered and in-flight operations (the session classes are client-internal
code, not under src/). -/
structure YBSession where
  buffered : List Nat := []
  inFlight : List Nat := []
  deriving DecidableEq, Repr

/-- Modelled from the spec: HasPendingOperations. -/
def hasPendingOperations (s : YBSession) : Bool :=
  !s.buffered.isEmpty || !s.inFlight.isEmpty

/-- Modelled from the spec: YBSession::Apply buffers one operation (the
buffer-budget Incomplete failure is out of scope for the claims). -/
def sessionApply (s : YBSession) (opId : Nat) : YBSession :=
  { s with buffered := s.buffered ++ [opId] }

/-- Modelled from the spec: a finished flush completes every buffered and
in-flight operation. -/
def sessionFlush (_s : YBSession) : YBSession :=
  { buffered := [], inFlight := [] }

/-- Modelled from the spec: YBSession::Close refuses with IllegalState while
any operation is pending or in flight, leaving the session untouched;
otherwise it releases resources. -/
def sessionClose (s : YBSession) : Except YBStatus YBSession :=
  if hasPendingOperations s then
    .error ⟨.illegalState, "Could not close the session: pending operations"⟩
  else
    .ok s

end Client

namespace Redis

/-- Abstract ZADD flags, used to quantify over flag sequences. -/
inductive ZFlag
  | chF
  | incrF
  | nxF
  | xxF
  deriving DecidableEq, Repr

/-- Canonical token of a ZADD flag. -/
def zflagToken : ZFlag → String
  | .chF => "CH"
  | .incrF => "INCR"
  | .nxF => "NX"
  | .xxF => "XX"

/-- Whether a token is recognised as a ZADD flag by ParseZAddOptions. -/
def isZFlagToken (t : String) : Bool :=
  iequals t "CH" || iequals t "INCR" || iequals t "NX" || iequals t "XX"

/-- The options a conflict-free flag sequence records. -/
def applyZFlags (fs : List ZFlag) (opts : SortedSetOptions) : SortedSetOptions :=
  fs.foldl
    (fun o f =>
      match f with
      | .chF => { o with ch := true }
      | .incrF => { o with incr := true }
      | .nxF => { o with updateOptions := .nx }
      | .xxF => { o with updateOptions := .xx })
    opts

/-- Whether scanning the flag sequence from the given update option hits the
NX-versus-XX incompatibility. -/
def zconflict : ZUpdateOptions → List ZFlag → Bool
  | _, [] => false
  | u, .nxF :: rest => u = .xx || zconflict .nx rest
  | u, .xxF :: rest => u = .nx || zconflict .xx rest
  | u, .chF :: rest => zconflict u rest
  | u, .incrF :: rest => zconflict u rest

/-- Abstract SET flags: EX and PX carry both the raw token and the number it
denotes. -/
inductive SetFlag
  | exF (tok : String) (n : Int)
  | pxF (tok : String) (n : Int)
  | xxF
  | nxF
  deriving DecidableEq, Repr

/-- Tokens a SET flag list renders to. -/
def renderSetFlags : List SetFlag → List String
  | [] => []
  | .exF t _ :: rest => "EX" :: t :: renderSetFlags rest
  | .pxF t _ :: rest => "PX" :: t :: renderSetFlags rest
  | .xxF :: rest => "XX" :: renderSetFlags rest
  | .nxF :: rest => "NX" :: renderSetFlags rest

/-- Well-formedness of one SET flag: the token denotes its number and a TTL is
within bounds. -/
def setFlagOk : SetFlag → Prop
  | .exF t n => parseInt64 t "TTL" = .ok n ∧
      kRedisMinTtlSeconds ≤ n ∧ n ≤ kRedisMaxTtlSeconds
  | .pxF t n => parseInt64 t "TTL" = .ok n ∧
      kRedisMinTtlSeconds ≤ n ∧ n ≤ kRedisMaxTtlSeconds
  | .xxF => True
  | .nxF => True

/-- The set request a well-formed flag list produces: each flag overwrites the
field it governs, so the last occurrence wins; an EX TTL is scaled to
milliseconds, a PX TTL is stored as is. -/
def applySetFlags (fs : List SetFlag) (req : RedisSetRequest) : RedisSetRequest :=
  fs.foldl
    (fun r f =>
      match f with
      | .exF _ n => { r with ttl := some (n * kMillisecondsPerSecond) }
      | .pxF _ n => { r with ttl := some n }
      | .xxF => { r with mode := some .update }
      | .nxF => { r with mode := some .insert })
    req

/-- The (field, value) pairs of the trailing tokens of an HMSET-like
command. -/
def pairsOf : List String → List (String × String)
  | f :: v :: rest => (f, v) :: pairsOf rest
  | _ => []

/-- The value attached to the last occurrence of a key among the pairs. -/
def lastOccurrence (k : String) (ps : List (String × String)) : Option String :=
  (ps.reverse.find? (fun q => q.1 = k)).map Prod.snd

/-- Folding the pairs through upsert, as the kv_map construction does. -/
def kvFold (m : List (String × String)) (ps : List (String × String)) :
    List (String × String) :=
  ps.foldl (fun acc q => upsert acc q.1 q.2) m

/-- Timestamp a subkey token denotes, defaulting to zero for tokens that do
not parse (only used under a parses-successfully hypothesis). -/
def tsVal (s : String) : Int :=
  match checkedStoll s.toList with
  | .ok v => v
  | .error _ => 0

end Redis

namespace Pgsql

/-- Specification-side description of the records the ybctid branch of
ApplyUpdate emits: one insert record per column value whose evaluation differs
from the existing value, in request order. -/
def changedColumnRecords (rangeKey : String) (tableRow : QLTableRow)
    (cvs : List PgsqlColumnValue) : List WriteRecord :=
  cvs.filterMap fun cv =>
    match cv.columnId with
    | none => none
    | some cid =>
      if evalExpr cv.expr tableRow ≠ evalColumnRef cid tableRow then
        some (.insertSubDocument ⟨rangeKey, .column cid⟩ (evalExpr cv.expr tableRow) none none)
      else
        none

/-- Number of rows of the stream matching the WHERE condition. -/
def countMatches (req : PgsqlReadRequest) (rows : List QLTableRow) : Nat :=
  (rows.filter (isMatchRow req)).length

end Pgsql

open YB

/-- C1: for every insert, the planner consults the row read back for the
derived key; when that row has any column present, Apply fails with a QLError
status whose message is "Duplicate key found in primary key or unique index",
and neither a liveness-column record nor any column sub-document record is
appended to the write batch. -/
theorem applyInsert_duplicate_key (op : Pgsql.PgsqlWriteOp) (tableRow : Pgsql.QLTableRow)
    (h : tableRow.isEmpty = false) :
    (Pgsql.applyInsert op tableRow).result =
      some ⟨.qlError, "Duplicate key found in primary key or unique index"⟩ ∧
    (Pgsql.applyInsert op tableRow).records = [] := by
  unfold Pgsql.applyInsert
  simp [h]

/-- Witness for C1 at a concrete operation and a one-column row. -/
theorem applyInsert_duplicate_key_witness :
    ([((1 : Int), Pgsql.QLValue.intValue 3)] : Pgsql.QLTableRow).isEmpty = false ∧
    (Pgsql.applyInsert { encodedRangeDocKey := some "K" }
        [((1 : Int), Pgsql.QLValue.intValue 3)]).result =
      some ⟨.qlError, "Duplicate key found in primary key or unique index"⟩ ∧
    (Pgsql.applyInsert { encodedRangeDocKey := some "K" }
        [((1 : Int), Pgsql.QLValue.intValue 3)]).records = [] :=
  ⟨rfl, applyInsert_duplicate_key _ _ rfl⟩

/-- C2 is refuted: an update that does not carry a ybctid column value (the
branch of ApplyUpdate reached when PGGATE calls in directly) appends an insert
record for a column whose newly evaluated value equals the value already
stored in the row, while the claim allows records only for changed columns. -/
theorem applyUpdate_writes_unchanged_column :
    Pgsql.evalExpr (.constant (.intValue 5)) [((1 : Int), Pgsql.QLValue.intValue 5)] =
      Pgsql.evalColumnRef 1 [((1 : Int), Pgsql.QLValue.intValue 5)] ∧
    (Pgsql.applyUpdate
        { request := { stmtType := .update,
                       columnNewValues := [⟨some 1, .constant (.intValue 5)⟩] }
          schema := ⟨[1]⟩
          encodedRangeDocKey := some "K" }
        [((1 : Int), Pgsql.QLValue.intValue 5)]).result = none ∧
    (Pgsql.applyUpdate
        { request := { stmtType := .update,
                       columnNewValues := [⟨some 1, .constant (.intValue 5)⟩] }
          schema := ⟨[1]⟩
          encodedRangeDocKey := some "K" }
        [((1 : Int), Pgsql.QLValue.intValue 5)]).records =
      [.insertSubDocument ⟨"K", .column 1⟩ (.intValue 5) none none] :=
  ⟨rfl, rfl, rfl⟩

/-- Characterization of the ybctid column loop of ApplyUpdate: with well-formed
column values it succeeds, appends exactly the changed-column records, and
clears the skipped flag exactly when a record was emitted. -/
theorem updateColumnsCompare_characterization (schema : Pgsql.Schema) (rangeKey : String)
    (tableRow : Pgsql.QLTableRow) (cvs : List Pgsql.PgsqlColumnValue)
    (hwf : ∀ cv ∈ cvs, ∃ cid, cv.columnId = some cid ∧
      schema.columns.contains cid = true)
    (acc : List Pgsql.WriteRecord) (skipped : Bool) :
    Pgsql.updateColumnsCompare schema rangeKey tableRow cvs acc skipped =
      (none, acc ++ Pgsql.changedColumnRecords rangeKey tableRow cvs,
        skipped && (Pgsql.changedColumnRecords rangeKey tableRow cvs).isEmpty) := by
  induction cvs generalizing acc skipped with
  | nil => simp [Pgsql.updateColumnsCompare, Pgsql.changedColumnRecords]
  | cons cv rest ih =>
    obtain ⟨cid, hcid, hcol⟩ := hwf cv (by simp)
    have hrest : ∀ cv' ∈ rest, ∃ cid', cv'.columnId = some cid' ∧
        schema.columns.contains cid' = true := by
      intro cv' h
      exact hwf cv' (by simp [h])
    have hmem : cid ∈ schema.columns := by
      simpa using hcol
    by_cases hch : Pgsql.evalExpr cv.expr tableRow = Pgsql.evalColumnRef cid tableRow
    · simp [Pgsql.updateColumnsCompare, hcid, hcol, hmem, hch,
        Pgsql.changedColumnRecords, ih hrest]
    · simp [Pgsql.updateColumnsCompare, hcid, hcol, hmem, hch,
        Pgsql.changedColumnRecords, ih hrest]

/-- C2 amended: for every update operation carrying a ybctid column value and
well-formed column references, Apply succeeds, appends an insert record for
exactly the columns whose newly evaluated value differs from the existing one,
sets the skipped flag exactly when no record was emitted, and sets the
response status to OK.  (Updates without a ybctid write every new column value
unconditionally, see the refutation above.) -/
theorem applyUpdate_ybctid_changed_only (op : Pgsql.PgsqlWriteOp) (tableRow : Pgsql.QLTableRow)
    (hyb : op.request.hasYbctid = true)
    (hwf : ∀ cv ∈ op.request.columnNewValues, ∃ cid, cv.columnId = some cid ∧
      op.schema.columns.contains cid = true) :
    (Pgsql.applyUpdate op tableRow).result = none ∧
    (Pgsql.applyUpdate op tableRow).records =
      Pgsql.changedColumnRecords (op.encodedRangeDocKey.getD "") tableRow
        op.request.columnNewValues ∧
    (Pgsql.applyUpdate op tableRow).response.skipped =
      (Pgsql.changedColumnRecords (op.encodedRangeDocKey.getD "") tableRow
        op.request.columnNewValues).isEmpty ∧
    (Pgsql.applyUpdate op tableRow).response.status = some .ok := by
  have hchar := updateColumnsCompare_characterization op.schema
    (op.encodedRangeDocKey.getD "") tableRow op.request.columnNewValues hwf [] true
  unfold Pgsql.applyUpdate
  rw [hyb]
  simp [hchar]

/-- Witness for the amended C2: a ybctid update with one changed and one
unchanged column emits exactly the changed-column record. -/
theorem applyUpdate_ybctid_changed_only_witness :
    (Pgsql.applyUpdate
        { request := { stmtType := .update, hasYbctid := true,
                       columnNewValues := [⟨some 1, .constant (.intValue 5)⟩,
                                           ⟨some 2, .constant (.intValue 9)⟩] }
          schema := ⟨[1, 2]⟩
          encodedRangeDocKey := some "K" }
        [((1 : Int), Pgsql.QLValue.intValue 5), ((2 : Int), Pgsql.QLValue.intValue 7)]).result
      = none ∧
    (Pgsql.applyUpdate
        { request := { stmtType := .update, hasYbctid := true,
                       columnNewValues := [⟨some 1, .constant (.intValue 5)⟩,
                                           ⟨some 2, .constant (.intValue 9)⟩] }
          schema := ⟨[1, 2]⟩
          encodedRangeDocKey := some "K" }
        [((1 : Int), Pgsql.QLValue.intValue 5), ((2 : Int), Pgsql.QLValue.intValue 7)]).records
      = Pgsql.changedColumnRecords "K"
          [((1 : Int), Pgsql.QLValue.intValue 5), ((2 : Int), Pgsql.QLValue.intValue 7)]
          [⟨some 1, .constant (.intValue 5)⟩, ⟨some 2, .constant (.intValue 9)⟩] ∧
    (Pgsql.applyUpdate
        { request := { stmtType := .update, hasYbctid := true,
                       columnNewValues := [⟨some 1, .constant (.intValue 5)⟩,
                                           ⟨some 2, .constant (.intValue 9)⟩] }
          schema := ⟨[1, 2]⟩
          encodedRangeDocKey := some "K" }
        [((1 : Int), Pgsql.QLValue.intValue 5), ((2 : Int), Pgsql.QLValue.intValue 7)]).response.skipped
      = (Pgsql.changedColumnRecords "K"
          [((1 : Int), Pgsql.QLValue.intValue 5), ((2 : Int), Pgsql.QLValue.intValue 7)]
          [⟨some 1, .constant (.intValue 5)⟩, ⟨some 2, .constant (.intValue 9)⟩]).isEmpty := by
  have h := applyUpdate_ybctid_changed_only
    { request := { stmtType := .update, hasYbctid := true,
                   columnNewValues := [⟨some 1, .constant (.intValue 5)⟩,
                                       ⟨some 2, .constant (.intValue 9)⟩] }
      schema := ⟨[1, 2]⟩
      encodedRangeDocKey := some "K" }
    [((1 : Int), Pgsql.QLValue.intValue 5), ((2 : Int), Pgsql.QLValue.intValue 7)]
    rfl
    (by
      intro cv hcv
      simp at hcv
      rcases hcv with h1 | h2
      · exact ⟨1, by simp [h1]⟩
      · exact ⟨2, by simp [h2]⟩)
  exact ⟨h.1, h.2.1, h.2.2.1⟩

/-- C8: with every replica blacklisted, or with every replica marked failed
and an empty blacklist, the tablet server selector fails with
ServiceUnavailable under each of the three selection policies. -/
theorem getTabletServer_all_unusable :
    (∀ (rt : Client.RemoteTablet) (sel : Client.ReplicaSelection) (blacklist : List String),
      (∀ r ∈ rt.replicas, blacklist.contains r.ts.uuid = true) →
      errorCat (Client.getTabletServer rt sel blacklist) = some .serviceUnavailable) ∧
    (∀ (rt : Client.RemoteTablet) (sel : Client.ReplicaSelection),
      (∀ r ∈ rt.replicas, r.failed = true) →
      errorCat (Client.getTabletServer rt sel []) = some .serviceUnavailable) := by
  constructor
  · intro rt sel blacklist hb
    have hfil : rt.replicas.filter (Client.selectable blacklist) = [] := by
      rw [List.filter_eq_nil_iff]
      intro r hr
      have hmem : r.ts.uuid ∈ blacklist := by simpa using hb r hr
      simp [Client.selectable, hmem]
    cases sel <;> simp [Client.getTabletServer, hfil, errorCat]
  · intro rt sel hf
    have hfil : rt.replicas.filter (Client.selectable []) = [] := by
      rw [List.filter_eq_nil_iff]
      intro r hr
      simp [Client.selectable, hf r hr]
    cases sel <;> simp [Client.getTabletServer, hfil, errorCat]

/-- Witness for C8 at a two-replica tablet, for both scenarios under the
LEADER_ONLY policy. -/
theorem getTabletServer_all_unusable_witness :
    (∀ r ∈ (⟨[⟨⟨"a"⟩, .leader, false⟩, ⟨⟨"b"⟩, .follower, false⟩]⟩ :
        Client.RemoteTablet).replicas, (["a", "b"] : List String).contains r.ts.uuid = true) ∧
    errorCat (Client.getTabletServer ⟨[⟨⟨"a"⟩, .leader, false⟩, ⟨⟨"b"⟩, .follower, false⟩]⟩
        .leaderOnly ["a", "b"]) = some .serviceUnavailable ∧
    errorCat (Client.getTabletServer ⟨[⟨⟨"a"⟩, .leader, true⟩, ⟨⟨"b"⟩, .follower, true⟩]⟩
        .leaderOnly []) = some .serviceUnavailable :=
  ⟨by decide,
   getTabletServer_all_unusable.1 _ .leaderOnly _ (by decide),
   getTabletServer_all_unusable.2 _ .leaderOnly (by decide)⟩

/-- C9: a session with at least one buffered or in-flight operation refuses
Close with IllegalState, and once a flush has completed every pending
operation, Close succeeds. -/
theorem sessionClose_pending_illegal (s : Client.YBSession)
    (h : Client.hasPendingOperations s = true) :
    Client.sessionClose s =
      .error ⟨.illegalState, "Could not close the session: pending operations"⟩ ∧
    Client.sessionClose (Client.sessionFlush s) = .ok { buffered := [], inFlight := [] } := by
  constructor
  · simp [Client.sessionClose, h]
  · simp [Client.sessionClose, Client.sessionFlush, Client.hasPendingOperations]

/-- Witness for C9 at a session holding one buffered operation. -/
theorem sessionClose_pending_illegal_witness :
    Client.hasPendingOperations ⟨[1], []⟩ = true ∧
    Client.sessionClose ⟨[1], []⟩ =
      .error ⟨.illegalState, "Could not close the session: pending operations"⟩ ∧
    Client.sessionClose (Client.sessionFlush ⟨[1], []⟩) =
      .ok { buffered := [], inFlight := [] } :=
  ⟨rfl, sessionClose_pending_illegal ⟨[1], []⟩ rfl⟩

/-- One step of countMatches. -/
theorem countMatches_cons (req : Pgsql.PgsqlReadRequest) (r : Pgsql.QLTableRow)
    (rest : List Pgsql.QLTableRow) :
    Pgsql.countMatches req (r :: rest) =
      (if Pgsql.isMatchRow req r then 1 else 0) + Pgsql.countMatches req rest := by
  by_cases hm : Pgsql.isMatchRow req r = true
  · simp [Pgsql.countMatches, List.filter_cons, hm, Nat.add_comm]
  · simp [Pgsql.countMatches, List.filter_cons, hm]

/-- Behaviour of the fetch loop of a non-aggregate request whose stream still
holds more matches than the limit leaves room for: the result set is filled to
exactly the limit and at least one matching row stays unconsumed. -/
theorem executeLoop_reaches_limit (req : Pgsql.PgsqlReadRequest) (N : Nat)
    (hna : req.isAggregate = false) :
    ∀ (rows : List Pgsql.QLTableRow) (rs : List (List Pgsql.QLValue)) (mc : Nat)
      (aggr : List Pgsql.QLValue),
      rs.length ≤ N →
      N < Pgsql.countMatches req rows + rs.length →
      (Pgsql.executeLoop req (some N) rows rs mc aggr).1.length = N ∧
      0 < Pgsql.countMatches req (Pgsql.executeLoop req (some N) rows rs mc aggr).2.2.2 := by
  intro rows
  induction rows with
  | nil =>
    intro rs mc aggr hlen hcnt
    simp [Pgsql.countMatches] at hcnt
    omega
  | cons r rest ih =>
    intro rs mc aggr hlen hcnt
    rw [countMatches_cons] at hcnt
    by_cases hb : rs.length < N
    · have hbl : Pgsql.belowLimit rs.length (some N) = true := by
        simp [Pgsql.belowLimit, hb]
      by_cases hm : Pgsql.isMatchRow req r = true
      · have hstep : Pgsql.executeLoop req (some N) (r :: rest) rs mc aggr =
            Pgsql.executeLoop req (some N) rest (rs ++ [Pgsql.populateReadRow req r])
              (mc + 1) aggr := by
          simp [Pgsql.executeLoop, hbl, hm, hna]
        rw [hstep]
        apply ih
        · simpa using hb
        · simp [hm] at hcnt
          simp
          omega
      · have hstep : Pgsql.executeLoop req (some N) (r :: rest) rs mc aggr =
            Pgsql.executeLoop req (some N) rest rs mc aggr := by
          simp [Pgsql.executeLoop, hbl, hm]
        rw [hstep]
        apply ih _ _ _ hlen
        simp [hm] at hcnt
        omega
    · have heq : rs.length = N := Nat.le_antisymm hlen (Nat.not_lt.mp hb)
      have hbl : Pgsql.belowLimit rs.length (some N) = false := by
        simp [Pgsql.belowLimit, hb]
      have hstep : Pgsql.executeLoop req (some N) (r :: rest) rs mc aggr =
          (rs, mc, aggr, r :: rest) := by
        simp [Pgsql.executeLoop, hbl]
      rw [hstep]
      refine ⟨heq, ?_⟩
      rw [countMatches_cons]
      omega

/-- C3 is refuted for aggregates: an aggregate read with row_count_limit 2
over three rows matching the (absent) WHERE condition returns a single
result row, not two. -/
theorem execute_aggregate_single_row :
    (Pgsql.execute
        { limit := some 2, isAggregate := true, targets := [.constant (.intValue 9)] }
        [[((1 : Int), Pgsql.QLValue.intValue 1)], [((1 : Int), Pgsql.QLValue.intValue 2)],
         [((1 : Int), Pgsql.QLValue.intValue 3)]]).resultRows.length = 1 ∧
    Pgsql.countMatches
        { limit := some 2, isAggregate := true, targets := [.constant (.intValue 9)] }
        [[((1 : Int), Pgsql.QLValue.intValue 1)], [((1 : Int), Pgsql.QLValue.intValue 2)],
         [((1 : Int), Pgsql.QLValue.intValue 3)]] = 3 ∧
    (1 : Nat) ≠ 2 :=
  ⟨rfl, rfl, by decide⟩

/-- C3 amended: for every non-aggregate read request with row_count_limit N
(N positive) over a stream holding more than N rows matching the WHERE
condition, Execute returns exactly N result rows and attaches a non-empty
paging state; an aggregate request instead produces a single result row, see
the refutation above. -/
theorem execute_limit_paging (req : Pgsql.PgsqlReadRequest) (rows : List Pgsql.QLTableRow)
    (N : Nat) (hna : req.isAggregate = false) (hlim : req.limit = some N) (hpos : 0 < N)
    (hcnt : N < Pgsql.countMatches req rows) :
    (Pgsql.execute req rows).resultRows.length = N ∧
    (Pgsql.execute req rows).response.pagingState.isSome = true := by
  have hloop := executeLoop_reaches_limit req N hna rows [] 0 []
    (by simp) (by simpa using hcnt)
  obtain ⟨h1, h2⟩ := hloop
  have hrem : (Pgsql.executeLoop req (some N) rows [] 0 []).2.2.2 ≠ [] := by
    intro h
    rw [h] at h2
    simp [Pgsql.countMatches] at h2
  have hN0 : N ≠ 0 := Nat.pos_iff_ne_zero.mp hpos
  unfold Pgsql.execute
  rw [hlim]
  simp only [Option.some.injEq, hN0, if_false]
  simp [hna, Pgsql.atLimit, h1, Pgsql.setPagingStateIfNecessary, hrem]

/-- Witness for the amended C3: limit two over three matching rows. -/
theorem execute_limit_paging_witness :
    (Pgsql.execute { limit := some 2 }
        [[((1 : Int), Pgsql.QLValue.intValue 1)], [((1 : Int), Pgsql.QLValue.intValue 2)],
         [((1 : Int), Pgsql.QLValue.intValue 3)]]).resultRows.length = 2 ∧
    (Pgsql.execute { limit := some 2 }
        [[((1 : Int), Pgsql.QLValue.intValue 1)], [((1 : Int), Pgsql.QLValue.intValue 2)],
         [((1 : Int), Pgsql.QLValue.intValue 3)]]).response.pagingState.isSome = true :=
  execute_limit_paging _ _ 2 rfl rfl (by decide) (by decide)

/-- memchr finds the first newline after a newline-free block. -/
theorem memchrNewline_append (xs rest : List Char) (h : ∀ c ∈ xs, c ≠ '\n') :
    Redis.memchrNewline (xs ++ '\n' :: rest) = some xs.length := by
  induction xs with
  | nil => simp [Redis.memchrNewline]
  | cons c xs ih =>
    have hc : c ≠ '\n' := h c (by simp)
    have hxs : ∀ a ∈ xs, a ≠ '\n' := fun a hm => h a (by simp [hm])
    simp [Redis.memchrNewline, hc, ih hxs]

/-- Reading past an appended block shifts the index. -/
theorem getD_append_add (l t : List Char) (j : Nat) (d : Char) :
    (l ++ t).getD (l.length + j) d = t.getD j d := by
  induction l with
  | nil => simp
  | cons c l ih =>
    have harith : l.length + 1 + j = (l.length + j) + 1 := by omega
    simp only [List.cons_append, List.length_cons, harith, List.getD_cons_succ]
    exact ih

/-- FindEndOfLine on a buffer whose next line is mid followed by CRLF: it
consumes the line, leaving pos one past the newline. -/
theorem findEndOfLine_structured (p : Redis.RedisParser) (pre mid rest : List Char)
    (hsrc : p.source = pre ++ mid ++ '\r' :: '\n' :: rest)
    (hpos : p.pos = pre.length) (htok : p.tokenBegin = pre.length)
    (hnl : ∀ c ∈ mid, c ≠ '\n') :
    Redis.findEndOfLine p =
      .ok { p with incomplete := false, pos := pre.length + mid.length + 2 } := by
  have hshape : p.source = pre ++ ((mid ++ ['\r']) ++ '\n' :: rest) := by
    rw [hsrc]; simp
  have hdrop : p.source.drop p.pos = (mid ++ ['\r']) ++ '\n' :: rest := by
    rw [hshape, hpos]
    exact List.drop_left _ _
  have hmidcr : ∀ c ∈ mid ++ ['\r'], c ≠ '\n' := by
    intro c hc
    rcases List.mem_append.mp hc with h | h
    · exact hnl c h
    · simp at h; subst h; decide
  have hfn : Redis.firstNewlineFrom p.source p.pos =
      some (pre.length + (mid.length + 1)) := by
    unfold Redis.firstNewlineFrom
    rw [hdrop, memchrNewline_append _ _ hmidcr]
    simp [hpos]
  have hk : ¬ (pre.length + (mid.length + 1) = p.tokenBegin) := by
    rw [htok]; omega
  have hcr : Redis.charAt p (pre.length + (mid.length + 1) - 1) = '\r' := by
    have harith : pre.length + (mid.length + 1) - 1 = pre.length + mid.length := by omega
    rw [harith]
    unfold Redis.charAt
    rw [show p.source = pre ++ (mid ++ '\r' :: '\n' :: rest) by rw [hsrc]; simp]
    rw [getD_append_add]
    have := getD_append_add mid ('\r' :: '\n' :: rest) 0 (Char.ofNat 0)
    simpa using this
  have harith2 : pre.length + (mid.length + 1) + 1 = pre.length + mid.length + 2 := by omega
  unfold Redis.findEndOfLine
  rw [hfn]
  simp only [hk, if_false, hcr, if_neg, harith2]
  simp

/-- The whitespace-skipping loop runs to the end of an all-space range. -/
theorem skipSpaces_all_spaces (src : List Char) :
    ∀ (d start finish : Nat), finish - start = d → start ≤ finish →
    (∀ j, start ≤ j → j < finish → Redis.redisIsSpace (src.getD j (Char.ofNat 0)) = true) →
    Redis.skipSpaces src start finish = finish := by
  intro d
  induction d with
  | zero =>
    intro start finish hd hle _
    have heq : start = finish := by omega
    subst heq
    rw [Redis.skipSpaces]
    rw [dif_neg (fun h => absurd h.1 (by omega))]
  | succ n ih =>
    intro start finish hd hle hsp
    have hlt : start < finish := by omega
    rw [Redis.skipSpaces]
    rw [dif_pos ⟨hlt, hsp start le_rfl hlt⟩]
    exact ih (start + 1) finish (by omega) (by omega) (fun j h1 h2 => hsp j (by omega) h2)

/-- ParseNumber on a state whose consumed line is a marker followed by a
number token of admissible length: the outcome only depends on the bounds
check. -/
theorem parseNumber_structured (q : Redis.RedisParser) (pre s rest : List Char)
    (marker : Char) (lo hi : Int) (N : Int)
    (hsrc : q.source = pre ++ marker :: (s ++ '\r' :: '\n' :: rest))
    (hpos : q.pos = pre.length + s.length + 3)
    (htok : q.tokenBegin = pre.length)
    (hlen : s.length ≤ Redis.kMaxNumberLength)
    (hparse : Redis.checkedStoll s = .ok N) :
    Redis.parseNumber q marker lo hi =
      if N < lo || N > hi then .error ⟨.corruption, "Number out of expected range"⟩
      else .ok N := by
  have hm : Redis.charAt q q.tokenBegin = marker := by
    unfold Redis.charAt
    rw [hsrc, htok]
    have := getD_append_add pre (marker :: (s ++ '\r' :: '\n' :: rest)) 0 (Char.ofNat 0)
    simpa using this
  have hstop : q.pos - Redis.kLineEndLength - (q.tokenBegin + 1) = s.length := by
    rw [hpos, htok]
    unfold Redis.kLineEndLength
    omega
  have hslice : (q.source.drop (q.tokenBegin + 1)).take
      (q.pos - Redis.kLineEndLength - (q.tokenBegin + 1)) = s := by
    rw [hstop, hsrc, htok]
    rw [show pre ++ marker :: (s ++ '\r' :: '\n' :: rest) =
      (pre ++ [marker]) ++ (s ++ '\r' :: '\n' :: rest) by simp]
    rw [show pre.length + 1 = (pre ++ [marker]).length by simp]
    rw [List.drop_left]
    exact List.take_left _ _
  have h25 : ¬ (q.pos - Redis.kLineEndLength - (q.tokenBegin + 1) >
      Redis.kMaxNumberLength) := by
    rw [hstop]
    exact Nat.not_lt.mpr hlen
  unfold Redis.parseNumber
  rw [if_neg (by simp [hm])]
  rw [if_neg h25]
  rw [hslice, hparse]

/-- C5: for every bulk command header line consisting of the marker, a number
token denoting N (at most 25 characters), and CRLF, BulkHeader accepts the
header exactly when N lies in [1, 2^20], recording arguments_left = N, and
otherwise fails with Corruption. -/
theorem bulkHeader_bounds (p : Redis.RedisParser) (pre s rest : List Char) (N : Int)
    (hsrc : p.source = pre ++ '*' :: (s ++ '\r' :: '\n' :: rest))
    (hpos : p.pos = pre.length) (htok : p.tokenBegin = pre.length)
    (hnl : ∀ c ∈ s, c ≠ '\n') (hlen : s.length ≤ Redis.kMaxNumberLength)
    (hparse : Redis.checkedStoll s = .ok N) :
    (1 ≤ N ∧ N ≤ Redis.kMaxNumberOfArgs →
      Redis.bulkHeader p = .ok
        { p with incomplete := false,
                 pos := pre.length + s.length + 3,
                 tokenBegin := pre.length + s.length + 3,
                 state := .bulkArgumentSize,
                 argumentsLeft := N.toNat,
                 args := [] }) ∧
    ((N < 1 ∨ N > Redis.kMaxNumberOfArgs) →
      YB.errorCat (Redis.bulkHeader p) = some .corruption) := by
  have hmid : ∀ c ∈ '*' :: s, c ≠ '\n' := by
    intro c hc
    rcases List.mem_cons.mp hc with h | h
    · subst h; decide
    · exact hnl c h
  have hfe := findEndOfLine_structured p pre ('*' :: s) rest (by rw [hsrc]; simp)
    hpos htok hmid
  have hlen1 : pre.length + ('*' :: s).length + 2 = pre.length + s.length + 3 := by
    simp [List.length_cons]
    omega
  rw [hlen1] at hfe
  have hpn := parseNumber_structured
    { p with incomplete := false, pos := pre.length + s.length + 3 }
    pre s rest '*' 1 Redis.kMaxNumberOfArgs N (by simpa using hsrc) (by simp)
    (by simpa using htok) hlen hparse
  constructor
  · intro hin
    have hcond : (decide (N < 1) || decide (N > Redis.kMaxNumberOfArgs)) = false := by
      simp
      omega
    rw [hcond, if_neg (by simp)] at hpn
    simp [Redis.bulkHeader, hfe, hpn, Bind.bind, Except.bind, Functor.map, Except.map, Pure.pure, Except.pure]
  · intro hout
    have hcond : (decide (N < 1) || decide (N > Redis.kMaxNumberOfArgs)) = true := by
      rcases hout with h | h <;> simp [h]
    rw [hcond, if_pos rfl] at hpn
    simp [Redis.bulkHeader, hfe, hpn, YB.errorCat, Bind.bind, Except.bind,
      Functor.map, Except.map, Pure.pure, Except.pure]

/-- Witness for C5 at the boundary headers: N = 2^20 is accepted with
arguments_left = 2^20, while N = 0 and N = 2^20 + 1 are rejected with
Corruption. -/
theorem bulkHeader_bounds_witness :
    Redis.bulkHeader ⟨"*1048576\r\n".toList, 0, 0, 0, 0, .bulkHeader, false, []⟩ =
      .ok ⟨"*1048576\r\n".toList, 10, 10, 1048576, 0, .bulkArgumentSize, false, []⟩ ∧
    YB.errorCat
      (Redis.bulkHeader ⟨"*0\r\n".toList, 0, 0, 0, 0, .bulkHeader, false, []⟩) =
      some .corruption ∧
    YB.errorCat
      (Redis.bulkHeader ⟨"*1048577\r\n".toList, 0, 0, 0, 0, .bulkHeader, false, []⟩) =
      some .corruption := by
  refine ⟨?_, ?_, ?_⟩
  · have h := (bulkHeader_bounds
      ⟨"*1048576\r\n".toList, 0, 0, 0, 0, .bulkHeader, false, []⟩
      [] "1048576".toList [] 1048576 (by decide) (by decide) (by decide)
      (by decide) (by decide) rfl).1 (by decide)
    simpa using h
  · exact (bulkHeader_bounds
      ⟨"*0\r\n".toList, 0, 0, 0, 0, .bulkHeader, false, []⟩
      [] "0".toList [] 0 (by decide) (by decide) (by decide)
      (by decide) (by decide) rfl).2 (by decide)
  · exact (bulkHeader_bounds
      ⟨"*1048577\r\n".toList, 0, 0, 0, 0, .bulkHeader, false, []⟩
      [] "1048577".toList [] 1048577 (by decide) (by decide) (by decide)
      (by decide) (by decide) rfl).2 (by decide)

/-- C4 is refuted: a '\n' that is not preceded by '\r' makes parsing fail with
NetworkError, not Corruption. -/
theorem findEndOfLine_missing_cr_not_corruption :
    YB.errorCat (Redis.findEndOfLine ⟨"*1\n".toList, 0, 0, 0, 0, .bulkHeader, false, []⟩) =
      some .networkError ∧
    some YB.ErrCat.networkError ≠ some YB.ErrCat.corruption := by
  exact ⟨rfl, by decide⟩

/-- C4 amended: every listed malformed input makes parsing fail, but the
categories split: a wrong marker character before a number, a number out of
bounds and a too-long number fail with Corruption; an empty line (only
whitespace before CRLF) fails with InvalidArgument; a line end at the very
beginning of a command, a '\n' not preceded by '\r', and a bulk argument body
not followed by CRLF fail with NetworkError. -/
theorem parser_error_categories :
    (∀ (p : Redis.RedisParser) (marker : Char) (lo hi : Int),
      Redis.charAt p p.tokenBegin ≠ marker →
      YB.errorCat (Redis.parseNumber p marker lo hi) = some .corruption) ∧
    (∀ (p : Redis.RedisParser) (marker : Char) (lo hi : Int),
      Redis.charAt p p.tokenBegin = marker →
      p.pos - Redis.kLineEndLength - (p.tokenBegin + 1) > Redis.kMaxNumberLength →
      YB.errorCat (Redis.parseNumber p marker lo hi) = some .corruption) ∧
    (∀ (p : Redis.RedisParser) (marker : Char) (lo hi v : Int),
      Redis.charAt p p.tokenBegin = marker →
      ¬ (p.pos - Redis.kLineEndLength - (p.tokenBegin + 1) > Redis.kMaxNumberLength) →
      Redis.checkedStoll ((p.source.drop (p.tokenBegin + 1)).take
        (p.pos - Redis.kLineEndLength - (p.tokenBegin + 1))) = .ok v →
      (v < lo ∨ v > hi) →
      YB.errorCat (Redis.parseNumber p marker lo hi) = some .corruption) ∧
    (∀ (p : Redis.RedisParser) (pre line rest : List Char),
      p.source = pre ++ line ++ '\r' :: '\n' :: rest →
      p.pos = pre.length → p.tokenBegin = pre.length →
      (∀ c ∈ line, Redis.redisIsSpace c = true ∧ c ≠ '\n') →
      YB.errorCat (Redis.singleLine p) = some .invalidArgument) ∧
    (∀ (p : Redis.RedisParser) (k : Nat),
      Redis.firstNewlineFrom p.source p.pos = some k →
      k = p.tokenBegin →
      YB.errorCat (Redis.findEndOfLine p) = some .networkError) ∧
    (∀ (p : Redis.RedisParser) (k : Nat),
      Redis.firstNewlineFrom p.source p.pos = some k →
      k ≠ p.tokenBegin →
      Redis.charAt p (k - 1) ≠ '\r' →
      YB.errorCat (Redis.findEndOfLine p) = some .networkError) ∧
    (∀ (p : Redis.RedisParser),
      p.tokenBegin + p.currentArgumentSize + Redis.kLineEndLength ≤ p.source.length →
      (Redis.charAt p (p.tokenBegin + p.currentArgumentSize + Redis.kLineEndLength - 1) ≠ '\n' ∨
       Redis.charAt p (p.tokenBegin + p.currentArgumentSize + Redis.kLineEndLength - 2) ≠ '\r') →
      YB.errorCat (Redis.bulkArgumentBody p) = some .networkError) := by
  refine ⟨?_, ?_, ?_, ?_, ?_, ?_, ?_⟩
  · intro p marker lo hi h
    unfold Redis.parseNumber
    rw [if_pos h]
    rfl
  · intro p marker lo hi hm hlong
    unfold Redis.parseNumber
    rw [if_neg (by simp [hm]), if_pos hlong]
    rfl
  · intro p marker lo hi v hm hLen hstoll hbounds
    unfold Redis.parseNumber
    rw [if_neg (by simp [hm]), if_neg hLen, hstoll]
    have hcond : (decide (v < lo) || decide (v > hi)) = true := by
      rcases hbounds with h | h <;> simp [h]
    simp [hcond, YB.errorCat]
  · intro p pre line rest hsrc hpos htok hsp
    have hnl : ∀ c ∈ line, c ≠ '\n' := fun c hc => (hsp c hc).2
    have hfe := findEndOfLine_structured p pre line rest hsrc hpos htok hnl
    have hskip : Redis.skipSpaces p.source pre.length (pre.length + line.length) =
        pre.length + line.length := by
      apply skipSpaces_all_spaces p.source line.length pre.length
        (pre.length + line.length) (by omega) (by omega)
      intro j h1 h2
      obtain ⟨i, hi, rfl⟩ : ∃ i, i < line.length ∧ j = pre.length + i :=
        ⟨j - pre.length, by omega, by omega⟩
      rw [show p.source = pre ++ (line ++ '\r' :: '\n' :: rest) by rw [hsrc]; simp]
      rw [getD_append_add]
      have hilt : i < (line ++ '\r' :: '\n' :: rest).length := by
        simp
        omega
      rw [List.getD_eq_getElem _ _ hilt]
      have hmem : (line ++ '\r' :: '\n' :: rest)[i] ∈ line := by
        rw [List.getElem_append_left hi]
        exact List.getElem_mem hi
      exact (hsp _ hmem).1
    unfold Redis.singleLine
    rw [hfe]
    have harith : pre.length + line.length + 2 - 2 = pre.length + line.length := by omega
    simp [Bind.bind, Except.bind, Pure.pure, Except.pure, harith, hskip, htok,
      YB.errorCat]
  · intro p k hk hkt
    unfold Redis.findEndOfLine
    rw [hk]
    simp [hkt, YB.errorCat]
  · intro p k hk hkt hcr
    unfold Redis.findEndOfLine
    rw [hk]
    simp [hkt, hcr, YB.errorCat]
  · intro p hle hbad
    unfold Redis.bulkArgumentBody
    rw [if_neg (by omega)]
    rw [if_pos (by rcases hbad with h | h <;> simp [h])]
    rfl

/-- Witness for the amended C4, exercising each condition on a concrete
buffer. -/
theorem parser_error_categories_witness :
    YB.errorCat (Redis.parseNumber ⟨"$1\r\n".toList, 4, 0, 0, 0, .bulkHeader, false, []⟩
      '*' 1 Redis.kMaxNumberOfArgs) = some .corruption ∧
    YB.errorCat (Redis.parseNumber
      ⟨"*111111111111111111111111111111\r\n".toList, 33, 0, 0, 0, .bulkHeader, false, []⟩
      '*' 1 Redis.kMaxNumberOfArgs) = some .corruption ∧
    YB.errorCat (Redis.parseNumber ⟨"*0\r\n".toList, 4, 0, 0, 0, .bulkHeader, false, []⟩
      '*' 1 Redis.kMaxNumberOfArgs) = some .corruption ∧
    YB.errorCat (Redis.singleLine ⟨"\r\n".toList, 0, 0, 0, 0, .singleLine, false, []⟩) =
      some .invalidArgument ∧
    YB.errorCat (Redis.findEndOfLine ⟨"\n".toList, 0, 0, 0, 0, .singleLine, false, []⟩) =
      some .networkError ∧
    YB.errorCat (Redis.findEndOfLine ⟨"$1\n".toList, 0, 0, 0, 0, .bulkArgumentSize, false, []⟩) =
      some .networkError ∧
    YB.errorCat (Redis.bulkArgumentBody
      ⟨"abcXY".toList, 0, 0, 0, 3, .bulkArgumentBody, false, []⟩) = some .networkError := by
  refine ⟨?_, ?_, ?_, ?_, ?_, ?_, ?_⟩
  · exact parser_error_categories.1 _ '*' 1 Redis.kMaxNumberOfArgs (by decide)
  · exact parser_error_categories.2.1 _ '*' 1 Redis.kMaxNumberOfArgs (by decide) (by decide)
  · exact parser_error_categories.2.2.1 _ '*' 1 Redis.kMaxNumberOfArgs 0 (by decide)
      (by decide) rfl (Or.inl (by decide))
  · exact parser_error_categories.2.2.2.1 _ [] [] [] (by decide) rfl rfl (by simp)
  · exact parser_error_categories.2.2.2.2.1 _ 0 rfl rfl
  · exact parser_error_categories.2.2.2.2.2.1 _ 2 rfl (by decide) (by decide)
  · exact parser_error_categories.2.2.2.2.2.2 _ (by decide) (Or.inl (by decide))

/-- C7 is refuted: ParseSet accepts XX and NX together, the last occurrence
setting the write mode, while the claim requires at most one of them. -/
theorem parseSet_xx_nx_both_accepted :
    Redis.parseSet ["SET", "k", "v", "XX", "NX"] =
      .ok { keyValue := { key := "k", type := some .string, subkeys := [], values := ["v"] }
            setRequest := { mode := some .insert } } := by decide

/-- The ParseSet flag loop over rendered well-formed flags folds them into the
request and continues with the remaining tokens. -/
theorem parseSetFlags_render (fs : List Redis.SetFlag) (tail : List String)
    (req : Redis.RedisSetRequest) (hwf : ∀ f ∈ fs, Redis.setFlagOk f) :
    Redis.parseSetFlags (Redis.renderSetFlags fs ++ tail) req =
      Redis.parseSetFlags tail (Redis.applySetFlags fs req) := by
  induction fs generalizing req with
  | nil => simp [Redis.renderSetFlags, Redis.applySetFlags]
  | cons f fs ih =>
    have hfs : ∀ g ∈ fs, Redis.setFlagOk g := fun g hg => hwf g (by simp [hg])
    have ihh := fun r => ih r hfs
    have hupEX : (if ("EX" : String).length = 2 then Redis.toUpperStr "EX" else "")
        = "EX" := by decide
    have hupPX : (if ("PX" : String).length = 2 then Redis.toUpperStr "PX" else "")
        = "PX" := by decide
    have hupXX : (if ("XX" : String).length = 2 then Redis.toUpperStr "XX" else "")
        = "XX" := by decide
    have hupNX : (if ("NX" : String).length = 2 then Redis.toUpperStr "NX" else "")
        = "NX" := by decide
    cases f with
    | exF t n =>
      obtain ⟨hp, hlo, hhi⟩ := hwf (.exF t n) (by simp)
      have hcond : (decide (n < Redis.kRedisMinTtlSeconds) ||
          decide (n > Redis.kRedisMaxTtlSeconds)) = false := by
        simp only [Bool.or_eq_false_iff, decide_eq_false_iff_not, not_lt]
        exact ⟨hlo, hhi⟩
      simp [Redis.renderSetFlags, Redis.parseSetFlags, hupEX, hp, hcond,
        Redis.applySetFlags, ihh]
    | pxF t n =>
      obtain ⟨hp, hlo, hhi⟩ := hwf (.pxF t n) (by simp)
      have hcond : (decide (n < Redis.kRedisMinTtlSeconds) ||
          decide (n > Redis.kRedisMaxTtlSeconds)) = false := by
        simp only [Bool.or_eq_false_iff, decide_eq_false_iff_not, not_lt]
        exact ⟨hlo, hhi⟩
      simp [Redis.renderSetFlags, Redis.parseSetFlags, hupPX, hp, hcond,
        Redis.applySetFlags, ihh]
    | xxF =>
      have h1 : ("XX" : String) ≠ "EX" := by decide
      have h2 : ("XX" : String) ≠ "PX" := by decide
      rw [show Redis.renderSetFlags (Redis.SetFlag.xxF :: fs) =
        "XX" :: Redis.renderSetFlags fs from rfl, List.cons_append,
        Redis.parseSetFlags.eq_def]
      simp [hupXX, h1, h2, Redis.applySetFlags, ihh]
    | nxF =>
      have h1 : ("NX" : String) ≠ "EX" := by decide
      have h2 : ("NX" : String) ≠ "PX" := by decide
      have h3 : ("NX" : String) ≠ "XX" := by decide
      rw [show Redis.renderSetFlags (Redis.SetFlag.nxF :: fs) =
        "NX" :: Redis.renderSetFlags fs from rfl, List.cons_append,
        Redis.parseSetFlags.eq_def]
      simp [hupNX, h1, h2, h3, Redis.applySetFlags, ihh]

/-- C7 amended: ParseSet accepts the optional EX/PX/XX/NX flags in any order
after key and value; XX and NX may both appear, each occurrence overwriting
the write mode so the last one wins; an accepted TTL is stored normalized to
milliseconds (EX values scaled by 1000, PX values taken as is); and a TTL
outside [kRedisMinTtlSeconds, kRedisMaxTtlSeconds] is rejected with an
InvalidCommand error. -/
theorem parseSet_flags_characterization :
    (∀ (fs : List Redis.SetFlag) (key value : String),
      key ≠ "" → (∀ f ∈ fs, Redis.setFlagOk f) →
      Redis.parseSet ("SET" :: key :: value :: Redis.renderSetFlags fs) =
        .ok { keyValue := { key := key, type := some .string, subkeys := [],
                            values := [value] }
              setRequest := Redis.applySetFlags fs {} }) ∧
    (∀ (fs : List Redis.SetFlag) (key value u t : String) (n : Int) (rest : List String),
      key ≠ "" → (∀ f ∈ fs, Redis.setFlagOk f) →
      (u = "EX" ∨ u = "PX") →
      Redis.parseInt64 t "TTL" = .ok n →
      (n < Redis.kRedisMinTtlSeconds ∨ n > Redis.kRedisMaxTtlSeconds) →
      YB.errorCat (Redis.parseSet
        ("SET" :: key :: value :: (Redis.renderSetFlags fs ++ u :: t :: rest))) =
        some .invalidCommand) := by
  constructor
  · intro fs key value hk hwf
    have h := parseSetFlags_render fs [] {} hwf
    rw [List.append_nil] at h
    simp [Redis.parseSet, hk, h, Redis.parseSetFlags]
  · intro fs key value u t n rest hk hwf hu hp hoob
    have h := parseSetFlags_render fs (u :: t :: rest) {} hwf
    have hcond : (decide (n < Redis.kRedisMinTtlSeconds) ||
        decide (n > Redis.kRedisMaxTtlSeconds)) = true := by
      rcases hoob with h | h <;> simp [h]
    rcases hu with hu | hu <;> subst hu
    · have hup : (if ("EX" : String).length = 2 then Redis.toUpperStr "EX" else "")
          = "EX" := by decide
      simp [Redis.parseSet, hk, h, Redis.parseSetFlags, hup, hp, hcond, YB.errorCat]
    · have hup : (if ("PX" : String).length = 2 then Redis.toUpperStr "PX" else "")
          = "PX" := by decide
      simp [Redis.parseSet, hk, h, Redis.parseSetFlags, hup, hp, hcond, YB.errorCat]

/-- Witness for the amended C7: flags in scrambled order with both NX and XX
(the final XX wins) and a PX TTL overridden by a later EX TTL stored as
milliseconds; and EX 0 rejected as out of bounds. -/
theorem parseSet_flags_witness :
    Redis.parseSet ["SET", "k", "v", "PX", "7", "NX", "EX", "5", "XX"] =
      .ok { keyValue := { key := "k", type := some .string, subkeys := [], values := ["v"] }
            setRequest := { ttl := some 5000, mode := some .update } } ∧
    YB.errorCat (Redis.parseSet ["SET", "k", "v", "EX", "0"]) = some .invalidCommand := by
  constructor
  · have h := parseSet_flags_characterization.1
      [.pxF "7" 7, .nxF, .exF "5" 5, .xxF] "k" "v" (by decide)
      (by
        intro f hf
        simp at hf
        rcases hf with h | h | h | h <;> subst h
        · exact ⟨rfl, by decide, by decide⟩
        · exact trivial
        · exact ⟨rfl, by decide, by decide⟩
        · exact trivial)
    simpa [Redis.renderSetFlags, Redis.applySetFlags,
      Redis.kMillisecondsPerSecond] using h
  · exact parseSet_flags_characterization.2 [] "k" "v" "EX" "0" 0 [] (by decide)
      (by simp) (Or.inl rfl) rfl (Or.inl (by decide))

/-- Mapping the success value leaves the error category unchanged. -/
theorem errorCat_map {α β : Type} (f : α → β) (e : Except YB.YBStatus α) :
    YB.errorCat (e.map f) = YB.errorCat e := by
  cases e <;> rfl

/-- ParseZAddOptions over a rendered flag sequence followed by non-flag
tokens: it fails with InvalidArgument exactly when the scan hits the NX/XX
incompatibility, and otherwise folds the flags into the options and consumes
exactly the flag tokens. -/
theorem parseZAddOptions_render (fs : List Redis.ZFlag) (restTokens : List String)
    (hrest : ∀ t, restTokens.head? = some t → Redis.isZFlagToken t = false) :
    ∀ (opts : Redis.SortedSetOptions),
    (Redis.zconflict opts.updateOptions fs = true →
      Redis.parseZAddOptions (fs.map Redis.zflagToken ++ restTokens) opts =
        .error ⟨.invalidArgument,
          "XX and NX options at the same time are not compatible"⟩) ∧
    (Redis.zconflict opts.updateOptions fs = false →
      Redis.parseZAddOptions (fs.map Redis.zflagToken ++ restTokens) opts =
        .ok (Redis.applyZFlags fs opts, fs.length)) := by
  induction fs with
  | nil =>
    intro opts
    constructor
    · intro hc
      simp [Redis.zconflict] at hc
    · intro _
      match hrt : restTokens with
      | [] => simp [Redis.parseZAddOptions, Redis.applyZFlags]
      | t :: rest2 =>
        have hflag := hrest t rfl
        simp only [Redis.isZFlagToken, Bool.or_eq_false_iff] at hflag
        obtain ⟨⟨⟨h1, h2⟩, h3⟩, h4⟩ := hflag
        simp [Redis.parseZAddOptions, h1, h2, h3, h4, Redis.applyZFlags]
  | cons f fs ih =>
    intro opts
    have hCH : Redis.iequals "CH" "CH" = true := by decide
    have hINCR1 : Redis.iequals "INCR" "CH" = false := by decide
    have hINCR2 : Redis.iequals "INCR" "INCR" = true := by decide
    have hNX1 : Redis.iequals "NX" "CH" = false := by decide
    have hNX2 : Redis.iequals "NX" "INCR" = false := by decide
    have hNX3 : Redis.iequals "NX" "NX" = true := by decide
    have hXX1 : Redis.iequals "XX" "CH" = false := by decide
    have hXX2 : Redis.iequals "XX" "INCR" = false := by decide
    have hXX3 : Redis.iequals "XX" "NX" = false := by decide
    have hXX4 : Redis.iequals "XX" "XX" = true := by decide
    cases f with
    | chF =>
      have ihc := ih { opts with ch := true }
      constructor
      · intro hc
        have h := ihc.1 (by simpa [Redis.zconflict] using hc)
        simp [Redis.parseZAddOptions, Redis.zflagToken, hCH, Except.map, h]
      · intro hc
        have h := ihc.2 (by simpa [Redis.zconflict] using hc)
        simp [Redis.parseZAddOptions, Redis.zflagToken, hCH, h, Redis.applyZFlags,
          Except.map]
    | incrF =>
      have ihc := ih { opts with incr := true }
      constructor
      · intro hc
        have h := ihc.1 (by simpa [Redis.zconflict] using hc)
        simp [Redis.parseZAddOptions, Redis.zflagToken, hINCR1, hINCR2, Except.map, h]
      · intro hc
        have h := ihc.2 (by simpa [Redis.zconflict] using hc)
        simp [Redis.parseZAddOptions, Redis.zflagToken, hINCR1, hINCR2, h,
          Redis.applyZFlags, Except.map]
    | nxF =>
      by_cases hxx : opts.updateOptions = .xx
      · constructor
        · intro _
          simp [Redis.parseZAddOptions, Redis.zflagToken, hNX1, hNX2, hNX3, hxx]
        · intro hc
          simp [Redis.zconflict, hxx] at hc
      · have ihc := ih { opts with updateOptions := .nx }
        have hzc : Redis.zconflict opts.updateOptions (.nxF :: fs) =
            Redis.zconflict .nx fs := by
          simp [Redis.zconflict, hxx]
        constructor
        · intro hc
          rw [hzc] at hc
          have h := ihc.1 (by simpa using hc)
          simp [Redis.parseZAddOptions, Redis.zflagToken, hNX1, hNX2, hNX3, hxx,
            Except.map, h]
        · intro hc
          rw [hzc] at hc
          have h := ihc.2 (by simpa using hc)
          simp [Redis.parseZAddOptions, Redis.zflagToken, hNX1, hNX2, hNX3, hxx, h,
            Redis.applyZFlags, Except.map]
    | xxF =>
      by_cases hnx : opts.updateOptions = .nx
      · constructor
        · intro _
          simp [Redis.parseZAddOptions, Redis.zflagToken, hXX1, hXX2, hXX3, hXX4, hnx]
        · intro hc
          simp [Redis.zconflict, hnx] at hc
      · have ihc := ih { opts with updateOptions := .xx }
        have hzc : Redis.zconflict opts.updateOptions (.xxF :: fs) =
            Redis.zconflict .xx fs := by
          simp [Redis.zconflict, hnx]
        constructor
        · intro hc
          rw [hzc] at hc
          have h := ihc.1 (by simpa using hc)
          simp [Redis.parseZAddOptions, Redis.zflagToken, hXX1, hXX2, hXX3, hXX4, hnx,
            Except.map, h]
        · intro hc
          rw [hzc] at hc
          have h := ihc.2 (by simpa using hc)
          simp [Redis.parseZAddOptions, Redis.zflagToken, hXX1, hXX2, hXX3, hXX4, hnx, h,
            Redis.applyZFlags, Except.map]

/-- Starting from the proto default, the flag scan conflicts exactly when both
NX and XX occur in the sequence. -/
theorem zconflict_iff (fs : List Redis.ZFlag) :
    (Redis.zconflict .nx fs = true ↔ .xxF ∈ fs) ∧
    (Redis.zconflict .xx fs = true ↔ .nxF ∈ fs) ∧
    (Redis.zconflict .noneOpt fs = true ↔ (.nxF ∈ fs ∧ .xxF ∈ fs)) := by
  induction fs with
  | nil => simp [Redis.zconflict]
  | cons f fs ih =>
    obtain ⟨h1, h2, h3⟩ := ih
    cases f <;> simp [Redis.zconflict, h1, h2, h3]

/-- The folded options record INCR exactly when it was seen. -/
theorem applyZFlags_incr (fs : List Redis.ZFlag) :
    ∀ (opts : Redis.SortedSetOptions),
    (Redis.applyZFlags fs opts).incr = (opts.incr || fs.contains .incrF) := by
  induction fs with
  | nil => intro opts; simp [Redis.applyZFlags]
  | cons f fs ih =>
    intro opts
    cases f <;> simp [Redis.applyZFlags, List.contains_cons] at ih ⊢ <;>
      rw [ih] <;> simp [Bool.or_assoc, Bool.or_comm, Bool.or_left_comm]

/-- The kv_map construction for sorted sets never fails on an even token
list. -/
theorem buildKvMap_sortedset_ok :
    ∀ (n : Nat) (tokens : List String), tokens.length ≤ n → tokens.length % 2 = 0 →
    ∀ (m : List (String × String)) (ttl : Option Int),
    ∃ out, Redis.buildKvMap .sortedset 0 tokens m ttl = .ok out := by
  intro n
  induction n with
  | zero =>
    intro tokens hle _ m ttl
    match tokens with
    | [] => exact ⟨(m, ttl), rfl⟩
    | t :: rest => simp at hle
  | succ n ih =>
    intro tokens hle heven m ttl
    match tokens with
    | [] => exact ⟨(m, ttl), rfl⟩
    | [f] => simp at heven
    | f :: v :: rest =>
      have hle2 : rest.length ≤ n := by
        simp [List.length_cons] at hle
        omega
      have heven2 : rest.length % 2 = 0 := by
        simp [List.length_cons] at heven
        omega
      obtain ⟨out, hout⟩ := ih rest hle2 heven2 (Redis.upsert m v f) ttl
      refine ⟨out, ?_⟩
      simp [Redis.buildKvMap, hout]

/-- The emission loop never fails under the double-subkey builder. -/
theorem emitKvMap_sortedset_ok (m : List (String × String)) :
    ∀ (kv : Redis.RedisKeyValue),
    ∃ out, Redis.emitKvMap Redis.addDoubleSubkey .sortedset m kv = .ok out := by
  induction m with
  | nil => intro kv; exact ⟨kv, rfl⟩
  | cons q m ih =>
    intro kv
    obtain ⟨out, hout⟩ := ih
      { kv with subkeys := kv.subkeys ++ [.doubleSubkey q.2], values := kv.values ++ [q.1] }
    refine ⟨out, ?_⟩
    simp [Redis.emitKvMap, Redis.addDoubleSubkey, Redis.checkedStold, Except.map, hout]

/-- C6: for every ZADD command, parsing fails with InvalidArgument when both
NX and XX appear among the flags, and fails with InvalidArgument when INCR is
supplied and the number of trailing tokens after the flags differs from one
score-member pair; otherwise flag parsing succeeds and the CH, INCR and NX/XX
options are recorded in the request. -/
theorem zadd_flags_validation :
    (∀ (fs : List Redis.ZFlag) (key : String) (restTokens : List String),
      Redis.ZFlag.nxF ∈ fs → Redis.ZFlag.xxF ∈ fs →
      (∀ t, restTokens.head? = some t → Redis.isZFlagToken t = false) →
      YB.errorCat (Redis.parseZAdd
        ("ZADD" :: key :: (fs.map Redis.zflagToken ++ restTokens))) =
        some .invalidArgument) ∧
    (∀ (fs : List Redis.ZFlag) (key : String) (restTokens : List String),
      Redis.ZFlag.incrF ∈ fs →
      Redis.zconflict .noneOpt fs = false →
      (∀ t, restTokens.head? = some t → Redis.isZFlagToken t = false) →
      restTokens.length ≠ 2 →
      YB.errorCat (Redis.parseZAdd
        ("ZADD" :: key :: (fs.map Redis.zflagToken ++ restTokens))) =
        some .invalidArgument) ∧
    (∀ (fs : List Redis.ZFlag) (key : String) (restTokens : List String),
      Redis.zconflict .noneOpt fs = false →
      (∀ t, restTokens.head? = some t → Redis.isZFlagToken t = false) →
      restTokens.length % 2 = 0 → restTokens.length ≠ 0 →
      (Redis.ZFlag.incrF ∈ fs → restTokens.length = 2) →
      ∃ req, Redis.parseZAdd ("ZADD" :: key :: (fs.map Redis.zflagToken ++ restTokens)) =
        .ok req ∧
        req.setRequest.sortedSetOptions =
          Redis.applyZFlags fs ({} : Redis.SortedSetOptions)) := by
  refine ⟨?_, ?_, ?_⟩
  · intro fs key restTokens hnx hxx hrest
    have hconf : Redis.zconflict .noneOpt fs = true := (zconflict_iff fs).2.2.mpr ⟨hnx, hxx⟩
    have herr := (parseZAddOptions_render fs restTokens hrest {}).1 (by simpa using hconf)
    unfold Redis.parseZAdd Redis.parseHMSetLikeCommands
    simp [herr, Bind.bind, Except.bind, YB.errorCat]
    by_cases hl : fs.length + restTokens.length + 1 + 1 < 4
    · simp [hl]
    · simp [hl]
  · intro fs key restTokens hincr hconf hrest hlen
    have hok := (parseZAddOptions_render fs restTokens hrest {}).2 (by simpa using hconf)
    have hincr2 : (Redis.applyZFlags fs ({} : Redis.SortedSetOptions)).incr = true := by
      rw [applyZFlags_incr]
      simpa using hincr
    unfold Redis.parseZAdd Redis.parseHMSetLikeCommands
    simp [hok, hincr2, Bind.bind, Except.bind, YB.errorCat]
    have harith : fs.length + restTokens.length + 1 + 1 - (2 + fs.length) =
        restTokens.length := by
      omega
    rw [harith]
    by_cases hl : fs.length + restTokens.length + 1 + 1 < 4
    · simp [hl]
    · simp [hl, hlen]
  · intro fs key restTokens hconf hrest heven hne0 himp
    have hok := (parseZAddOptions_render fs restTokens hrest {}).2 (by simpa using hconf)
    have harith : fs.length + restTokens.length + 1 + 1 - (2 + fs.length) =
        restTokens.length := by
      omega
    have hlt : ¬ (fs.length + restTokens.length + 1 + 1 < 4) := by omega
    have hdrop : ("ZADD" :: key :: (fs.map Redis.zflagToken ++ restTokens)).drop
        (2 + fs.length) = restTokens := by
      have h2 : (2 + fs.length) = (fs.map Redis.zflagToken).length + 1 + 1 := by
        simp
        omega
      rw [h2]
      rw [List.drop_succ_cons, List.drop_succ_cons]
      exact List.drop_left _ _
    obtain ⟨out, hbuild⟩ := buildKvMap_sortedset_ok restTokens.length restTokens
      le_rfl heven [] none
    obtain ⟨kvOut, hemit⟩ := emitKvMap_sortedset_ok out.1
      { key := key, type := some .sortedset, subkeys := [], values := [] }
    have hparity : ¬ (restTokens.length % 2 = 1 ∨ restTokens.length = 0) := by omega
    by_cases hi : Redis.ZFlag.incrF ∈ fs
    · have hlen2 := himp hi
      have hincr2 : (Redis.applyZFlags fs ({} : Redis.SortedSetOptions)).incr = true := by
        rw [applyZFlags_incr]
        simpa using hi
      unfold Redis.parseZAdd Redis.parseHMSetLikeCommands
      simp [hok, hincr2, Bind.bind, Except.bind, YB.errorCat, harith, hlt, hlen2,
        hdrop, hbuild, hemit, hparity, Pure.pure, Except.pure]
      rw [if_neg (by omega), if_pos (by omega), if_neg (by omega)]
      exact ⟨_, rfl, rfl⟩
    · have hincr2 : (Redis.applyZFlags fs ({} : Redis.SortedSetOptions)).incr = false := by
        rw [applyZFlags_incr]
        simpa using hi
      unfold Redis.parseZAdd Redis.parseHMSetLikeCommands
      simp [hok, hincr2, Bind.bind, Except.bind, YB.errorCat, harith, hlt,
        hdrop, hbuild, hemit, hparity, Pure.pure, Except.pure]
      have hpar2 : ¬ (restTokens.length % 2 = 1 ∨ restTokens = []) := by
        rintro (h | h)
        · omega
        · exact hne0 (by simp [h])
      rw [if_neg hpar2]
      exact ⟨_, rfl, rfl⟩

/-- Witness for C6: NX with XX rejected, INCR with two pairs rejected, CH with
two pairs accepted and recorded. -/
theorem zadd_flags_validation_witness :
    YB.errorCat (Redis.parseZAdd ["ZADD", "k", "NX", "XX", "1", "a"]) =
      some .invalidArgument ∧
    YB.errorCat (Redis.parseZAdd ["ZADD", "k", "INCR", "1", "a", "2", "b"]) =
      some .invalidArgument ∧
    ∃ req, Redis.parseZAdd ["ZADD", "k", "CH", "1", "a", "2", "b"] = .ok req ∧
      req.setRequest.sortedSetOptions =
        { ch := true, incr := false, updateOptions := .noneOpt } := by
  refine ⟨?_, ?_, ?_⟩
  · have h := zadd_flags_validation.1 [.nxF, .xxF] "k" ["1", "a"] (by decide) (by decide)
      (by
        intro t ht
        simp at ht
        subst ht
        decide)
    simpa [Redis.zflagToken] using h
  · have h := zadd_flags_validation.2.1 [.incrF] "k" ["1", "a", "2", "b"] (by decide)
      (by decide)
      (by
        intro t ht
        simp at ht
        subst ht
        decide)
      (by decide)
    simpa [Redis.zflagToken] using h
  · obtain ⟨req, hreq, hopts⟩ := zadd_flags_validation.2.2 [.chF] "k" ["1", "a", "2", "b"]
      (by decide)
      (by
        intro t ht
        simp at ht
        subst ht
        decide)
      (by decide) (by decide)
      (by
        intro h
        simp at h)
    exact ⟨req, by simpa [Redis.zflagToken] using hreq, by simpa using hopts⟩

/-- Lookup after an upsert: the upserted key maps to the new value, every
other key is unaffected. -/
theorem lookup_upsert (m : List (String × String)) (k v k' : String) :
    (Redis.upsert m k v).lookup k' = if k' = k then some v else m.lookup k' := by
  induction m with
  | nil =>
    by_cases h : k' = k
    · simp [Redis.upsert, List.lookup, h]
    · have hb : (k' == k) = false := beq_eq_false_iff_ne.mpr h
      simp [Redis.upsert, List.lookup, hb, h]
  | cons q m ih =>
    by_cases hq : q.1 = k
    · by_cases h : k' = k
      · have hb : (k' == q.1) = true := by
          rw [beq_iff_eq, hq]
          exact h
        simp [Redis.upsert, hq, List.lookup, hb, h]
      · have hb : (k' == k) = false := beq_eq_false_iff_ne.mpr h
        simp [Redis.upsert, hq, List.lookup, hb, h]
    · by_cases h : k' = q.1
      · have hb : (k' == q.1) = true := by
          rw [beq_iff_eq]
          exact h
        have h2 : ¬ k' = k := fun hh => hq (h.symm.trans hh)
        simp [Redis.upsert, hq, List.lookup, hb, h2]
      · have hb : (k' == q.1) = false := beq_eq_false_iff_ne.mpr h
        simp [Redis.upsert, hq, List.lookup, hb, ih]

/-- Keys after an upsert: unchanged when present, appended otherwise. -/
theorem keys_upsert (m : List (String × String)) (k v : String) :
    (Redis.upsert m k v).map Prod.fst =
      if k ∈ m.map Prod.fst then m.map Prod.fst else m.map Prod.fst ++ [k] := by
  induction m with
  | nil => simp [Redis.upsert]
  | cons q m ih =>
    by_cases hq : q.1 = k
    · simp [Redis.upsert, hq]
    · have hne : ¬ k = q.1 := fun h => hq h.symm
      by_cases hm : k ∈ m.map Prod.fst <;> simp [Redis.upsert, hq, hm, hne, ih]

/-- The kv_map fold preserves key distinctness. -/
theorem nodup_kvFold (ps : List (String × String)) :
    ∀ (m : List (String × String)), (m.map Prod.fst).Nodup →
    ((Redis.kvFold m ps).map Prod.fst).Nodup := by
  induction ps with
  | nil => intro m h; simpa [Redis.kvFold] using h
  | cons q ps ih =>
    intro m hm
    have hnd : ((Redis.upsert m q.1 q.2).map Prod.fst).Nodup := by
      rw [keys_upsert]
      by_cases hq : q.1 ∈ m.map Prod.fst
      · simpa [hq] using hm
      · simp only [hq, if_false]
        refine List.Nodup.append hm (by simp) ?_
        intro x hx hy
        simp at hy
        subst hy
        exact hq hx
    simpa [Redis.kvFold] using ih (Redis.upsert m q.1 q.2) hnd

/-- find? distributes over append through Option.or. -/
theorem find?_append_or {α : Type} (l1 l2 : List α) (p : α → Bool) :
    (l1 ++ l2).find? p = (l1.find? p).or (l2.find? p) := by
  induction l1 with
  | nil => simp
  | cons a l1 ih =>
    by_cases h : p a <;> simp [List.find?, h, ih]

/-- Option.map distributes over Option.or. -/
theorem map_option_or {α β : Type} (f : α → β) (a b : Option α) :
    (a.or b).map f = (a.map f).or (b.map f) := by
  cases a <;> rfl

/-- Lookup in the folded kv_map returns the value of the last occurrence of
the key among the pairs, falling back to the initial map. -/
theorem lookup_kvFold (ps : List (String × String)) :
    ∀ (m : List (String × String)) (k' : String),
    (Redis.kvFold m ps).lookup k' =
      (Redis.lastOccurrence k' ps).or (m.lookup k') := by
  induction ps with
  | nil => intro m k'; rfl
  | cons q ps ih =>
    intro m k'
    have hstep : Redis.kvFold m (q :: ps) = Redis.kvFold (Redis.upsert m q.1 q.2) ps := by
      simp [Redis.kvFold]
    have hsingle : (([q].find? (fun r => decide (r.1 = k'))).map Prod.snd) =
        if k' = q.1 then some q.2 else none := by
      by_cases h : q.1 = k'
      · subst h
        simp [List.find?]
      · have h2 : ¬ k' = q.1 := fun hh => h hh.symm
        simp [List.find?, h, h2]
    have hlast : Redis.lastOccurrence k' (q :: ps) =
        (Redis.lastOccurrence k' ps).or (if k' = q.1 then some q.2 else none) := by
      unfold Redis.lastOccurrence
      rw [show (q :: ps).reverse = ps.reverse ++ [q] by simp]
      rw [find?_append_or, map_option_or, hsingle]
    rw [hstep, ih, lookup_upsert, hlast, Option.or_assoc]
    congr 1
    by_cases h : k' = q.1 <;> simp [h]

/-- The kv_map loop for hashes folds the pairs through upsert and leaves the
TTL untouched. -/
theorem buildKvMap_hash_eq (nowSeconds : Int) :
    ∀ (n : Nat) (tokens : List String), tokens.length ≤ n → tokens.length % 2 = 0 →
    ∀ (m : List (String × String)) (ttl : Option Int),
    Redis.buildKvMap .hash nowSeconds tokens m ttl =
      .ok (Redis.kvFold m (Redis.pairsOf tokens), ttl) := by
  intro n
  induction n with
  | zero =>
    intro tokens hle _ m ttl
    match tokens with
    | [] => simp [Redis.buildKvMap, Redis.pairsOf, Redis.kvFold]
    | t :: rest => simp at hle
  | succ n ih =>
    intro tokens hle heven m ttl
    match tokens with
    | [] => simp [Redis.buildKvMap, Redis.pairsOf, Redis.kvFold]
    | [f] => simp at heven
    | f :: v :: rest =>
      have hle2 : rest.length ≤ n := by
        simp [List.length_cons] at hle
        omega
      have heven2 : rest.length % 2 = 0 := by
        simp [List.length_cons] at heven
        omega
      simp [Redis.buildKvMap, ih rest hle2 heven2, Redis.pairsOf, Redis.kvFold]

/-- The kv_map loop for timeseries behaves like the hash loop when no expire
flag occurs among the field tokens. -/
theorem buildKvMap_ts_eq (nowSeconds : Int) :
    ∀ (n : Nat) (tokens : List String), tokens.length ≤ n → tokens.length % 2 = 0 →
    (∀ pr ∈ Redis.pairsOf tokens, pr.1 ≠ Redis.kExpireAt ∧ pr.1 ≠ Redis.kExpireIn) →
    ∀ (m : List (String × String)) (ttl : Option Int),
    Redis.buildKvMap .timeseries nowSeconds tokens m ttl =
      .ok (Redis.kvFold m (Redis.pairsOf tokens), ttl) := by
  intro n
  induction n with
  | zero =>
    intro tokens hle _ _ m ttl
    match tokens with
    | [] => simp [Redis.buildKvMap, Redis.pairsOf, Redis.kvFold]
    | t :: rest => simp at hle
  | succ n ih =>
    intro tokens hle heven hexp m ttl
    match tokens with
    | [] => simp [Redis.buildKvMap, Redis.pairsOf, Redis.kvFold]
    | [f] => simp at heven
    | f :: v :: rest =>
      have hle2 : rest.length ≤ n := by
        simp [List.length_cons] at hle
        omega
      have heven2 : rest.length % 2 = 0 := by
        simp [List.length_cons] at heven
        omega
      have hexp2 : ∀ pr ∈ Redis.pairsOf rest,
          pr.1 ≠ Redis.kExpireAt ∧ pr.1 ≠ Redis.kExpireIn := by
        intro pr hpr
        exact hexp pr (by simp [Redis.pairsOf, hpr])
      obtain ⟨hf1, hf2⟩ := hexp (f, v) (by simp [Redis.pairsOf])
      simp [Redis.buildKvMap, hf1, hf2, ih rest hle2 heven2 hexp2,
        Redis.pairsOf, Redis.kvFold]

/-- The kv_map loop for sorted sets folds the swapped pairs (member to
score). -/
theorem buildKvMap_zadd_eq :
    ∀ (n : Nat) (tokens : List String), tokens.length ≤ n → tokens.length % 2 = 0 →
    ∀ (m : List (String × String)) (ttl : Option Int),
    Redis.buildKvMap .sortedset 0 tokens m ttl =
      .ok (Redis.kvFold m ((Redis.pairsOf tokens).map Prod.swap), ttl) := by
  intro n
  induction n with
  | zero =>
    intro tokens hle _ m ttl
    match tokens with
    | [] => simp [Redis.buildKvMap, Redis.pairsOf, Redis.kvFold]
    | t :: rest => simp at hle
  | succ n ih =>
    intro tokens hle heven m ttl
    match tokens with
    | [] => simp [Redis.buildKvMap, Redis.pairsOf, Redis.kvFold]
    | [f] => simp at heven
    | f :: v :: rest =>
      have hle2 : rest.length ≤ n := by
        simp [List.length_cons] at hle
        omega
      have heven2 : rest.length % 2 = 0 := by
        simp [List.length_cons] at heven
        omega
      simp [Redis.buildKvMap, ih rest hle2 heven2, Redis.pairsOf, Redis.kvFold,
        Prod.swap]

/-- The emission loop for hashes appends string subkeys and values in map
order. -/
theorem emitKvMap_hash_eq (m : List (String × String)) :
    ∀ (kv : Redis.RedisKeyValue),
    Redis.emitKvMap Redis.addStringSubkey .hash m kv =
      .ok { kv with
        subkeys := kv.subkeys ++ m.map (fun q => .stringSubkey q.1)
        values := kv.values ++ m.map (fun q => q.2) } := by
  induction m with
  | nil => intro kv; simp [Redis.emitKvMap]
  | cons q m ih =>
    intro kv
    simp [Redis.emitKvMap, Redis.addStringSubkey, ih]

/-- The emission loop for sorted sets appends double subkeys built from the
scores and the members as values. -/
theorem emitKvMap_zadd_eq (m : List (String × String)) :
    ∀ (kv : Redis.RedisKeyValue),
    Redis.emitKvMap Redis.addDoubleSubkey .sortedset m kv =
      .ok { kv with
        subkeys := kv.subkeys ++ m.map (fun q => .doubleSubkey q.2)
        values := kv.values ++ m.map (fun q => q.1) } := by
  induction m with
  | nil => intro kv; simp [Redis.emitKvMap]
  | cons q m ih =>
    intro kv
    simp [Redis.emitKvMap, Redis.addDoubleSubkey, Redis.checkedStold, Except.map, ih]

/-- The emission loop for timeseries appends timestamp subkeys when every
field token parses. -/
theorem emitKvMap_ts_eq (m : List (String × String))
    (hok : ∀ q ∈ m, YB.isOk (Redis.checkedStoll q.1.toList) = true) :
    ∀ (kv : Redis.RedisKeyValue),
    Redis.emitKvMap Redis.addTimestampSubkey .timeseries m kv =
      .ok { kv with
        subkeys := kv.subkeys ++ m.map (fun q => .timestampSubkey (Redis.tsVal q.1))
        values := kv.values ++ m.map (fun q => q.2) } := by
  induction m with
  | nil => intro kv; simp [Redis.emitKvMap]
  | cons q m ih =>
    intro kv
    have hq := hok q (by simp)
    have hrest : ∀ r ∈ m, YB.isOk (Redis.checkedStoll r.1.toList) = true :=
      fun r hr => hok r (by simp [hr])
    cases hcs : Redis.checkedStoll q.1.toList with
    | error e => rw [hcs] at hq; simp [YB.isOk] at hq
    | ok i =>
      have hcs2 : Redis.checkedStoll q.1.data = Except.ok i := hcs
      have hts : Redis.tsVal q.1 = i := by
        simp [Redis.tsVal, String.toList, hcs2]
      simp [Redis.emitKvMap, Redis.addTimestampSubkey, String.toList, hcs2,
        Except.map, hts, ih hrest]

/-- Every key of the folded map stems from the initial map or from the
pairs. -/
theorem keys_kvFold_subset (ps : List (String × String)) :
    ∀ (m : List (String × String)) (x : String),
    x ∈ (Redis.kvFold m ps).map Prod.fst →
    x ∈ m.map Prod.fst ∨ x ∈ ps.map Prod.fst := by
  induction ps with
  | nil => intro m x h; exact Or.inl (by simpa [Redis.kvFold] using h)
  | cons q ps ih =>
    intro m x h
    have hstep : Redis.kvFold m (q :: ps) = Redis.kvFold (Redis.upsert m q.1 q.2) ps := by
      simp [Redis.kvFold]
    rw [hstep] at h
    rcases ih (Redis.upsert m q.1 q.2) x h with h1 | h1
    · rw [keys_upsert] at h1
      by_cases hq : q.1 ∈ m.map Prod.fst
      · rw [if_pos hq] at h1
        exact Or.inl h1
      · rw [if_neg hq] at h1
        rcases List.mem_append.mp h1 with h2 | h2
        · exact Or.inl h2
        · simp at h2
          subst h2
          exact Or.inr (by simp)
    · exact Or.inr (by simp [h1])

/-- C10: for each of HMSET, TSADD and ZADD, the translated request carries
exactly one subkey/value pair per distinct field (member for ZADD): the kv_map
has distinct keys, the emitted subkey and value arrays are its image, and the
value (score) associated with a field is the one of its last occurrence in
argument order. -/
theorem hmset_like_last_occurrence_dedup :
    (∀ (key : String) (tokens : List String),
      tokens.length % 2 = 0 → tokens.length ≠ 0 →
      ∃ req, Redis.parseHMSet ("HMSET" :: key :: tokens) = .ok req ∧
        req.keyValue.subkeys.zip req.keyValue.values =
          (Redis.kvFold [] (Redis.pairsOf tokens)).map
            (fun q => (Redis.RedisSubKey.stringSubkey q.1, q.2)) ∧
        ((Redis.kvFold [] (Redis.pairsOf tokens)).map Prod.fst).Nodup ∧
        (∀ f, (Redis.kvFold [] (Redis.pairsOf tokens)).lookup f =
          Redis.lastOccurrence f (Redis.pairsOf tokens))) ∧
    (∀ (key : String) (tokens : List String) (nowSeconds : Int),
      tokens.length % 2 = 0 → tokens.length ≠ 0 →
      (∀ pr ∈ Redis.pairsOf tokens, pr.1 ≠ Redis.kExpireAt ∧ pr.1 ≠ Redis.kExpireIn) →
      (∀ pr ∈ Redis.pairsOf tokens, YB.isOk (Redis.checkedStoll pr.1.toList) = true) →
      ∃ req, Redis.parseTsAdd ("TSADD" :: key :: tokens) nowSeconds = .ok req ∧
        req.keyValue.subkeys.zip req.keyValue.values =
          (Redis.kvFold [] (Redis.pairsOf tokens)).map
            (fun q => (Redis.RedisSubKey.timestampSubkey (Redis.tsVal q.1), q.2)) ∧
        ((Redis.kvFold [] (Redis.pairsOf tokens)).map Prod.fst).Nodup ∧
        (∀ f, (Redis.kvFold [] (Redis.pairsOf tokens)).lookup f =
          Redis.lastOccurrence f (Redis.pairsOf tokens))) ∧
    (∀ (key : String) (tokens : List String),
      tokens.length % 2 = 0 → tokens.length ≠ 0 →
      (∀ t, tokens.head? = some t → Redis.isZFlagToken t = false) →
      ∃ req, Redis.parseZAdd ("ZADD" :: key :: tokens) = .ok req ∧
        req.keyValue.subkeys.zip req.keyValue.values =
          (Redis.kvFold [] ((Redis.pairsOf tokens).map Prod.swap)).map
            (fun q => (Redis.RedisSubKey.doubleSubkey q.2, q.1)) ∧
        ((Redis.kvFold [] ((Redis.pairsOf tokens).map Prod.swap)).map Prod.fst).Nodup ∧
        (∀ member, (Redis.kvFold [] ((Redis.pairsOf tokens).map Prod.swap)).lookup member =
          Redis.lastOccurrence member ((Redis.pairsOf tokens).map Prod.swap))) := by
  refine ⟨?_, ?_, ?_⟩
  · intro key tokens heven hne0
    have hbuild := buildKvMap_hash_eq 0 tokens.length tokens le_rfl heven [] none
    have hemit := emitKvMap_hash_eq (Redis.kvFold [] (Redis.pairsOf tokens))
      { key := key, type := some .hash, subkeys := [], values := [] }
    have hnd : ((Redis.kvFold [] (Redis.pairsOf tokens)).map Prod.fst).Nodup :=
      nodup_kvFold _ [] (by simp)
    have hlk : ∀ f, (Redis.kvFold [] (Redis.pairsOf tokens)).lookup f =
        Redis.lastOccurrence f (Redis.pairsOf tokens) := by
      intro f
      rw [lookup_kvFold]
      simp [List.lookup]
    have hpar : ¬ (tokens.length % 2 = 1 ∨ tokens = []) := by
      rintro (h | h)
      · omega
      · exact hne0 (by simp [h])
    unfold Redis.parseHMSet Redis.parseHMSetLikeCommands
    simp [Bind.bind, Except.bind, Pure.pure, Except.pure, hbuild, hemit]
    rw [if_neg (by omega), if_neg hpar]
    refine ⟨_, rfl, ?_, hnd, hlk⟩
    rw [List.zip_map']
  · intro key tokens nowSeconds heven hne0 hexp hparse
    have hbuild := buildKvMap_ts_eq nowSeconds tokens.length tokens le_rfl heven hexp [] none
    have hok : ∀ q ∈ Redis.kvFold [] (Redis.pairsOf tokens),
        YB.isOk (Redis.checkedStoll q.1.toList) = true := by
      intro q hq
      have hkey : q.1 ∈ (Redis.kvFold [] (Redis.pairsOf tokens)).map Prod.fst :=
        List.mem_map_of_mem Prod.fst hq
      rcases keys_kvFold_subset _ [] q.1 hkey with h | h
      · simp at h
      · obtain ⟨pr, hpr, hpr1⟩ := List.mem_map.mp h
        rw [← hpr1]
        exact hparse pr hpr
    have hemit := emitKvMap_ts_eq (Redis.kvFold [] (Redis.pairsOf tokens)) hok
      { key := key, type := some .timeseries, subkeys := [], values := [] }
    have hnd : ((Redis.kvFold [] (Redis.pairsOf tokens)).map Prod.fst).Nodup :=
      nodup_kvFold _ [] (by simp)
    have hlk : ∀ f, (Redis.kvFold [] (Redis.pairsOf tokens)).lookup f =
        Redis.lastOccurrence f (Redis.pairsOf tokens) := by
      intro f
      rw [lookup_kvFold]
      simp [List.lookup]
    have hpar : ¬ (tokens.length % 2 = 1 ∨ tokens = []) := by
      rintro (h | h)
      · omega
      · exact hne0 (by simp [h])
    unfold Redis.parseTsAdd Redis.parseHMSetLikeCommands
    simp [Bind.bind, Except.bind, Pure.pure, Except.pure, hbuild, hemit]
    rw [if_neg (by omega), if_neg hpar]
    refine ⟨_, rfl, ?_, hnd, hlk⟩
    rw [List.zip_map']
  · intro key tokens heven hne0 hfirst
    have hok0 : Redis.parseZAddOptions tokens {} =
        .ok (({} : Redis.SortedSetOptions), 0) := by
      have h := (parseZAddOptions_render [] tokens hfirst {}).2 (by simp [Redis.zconflict])
      simpa [Redis.applyZFlags] using h
    have hbuild := buildKvMap_zadd_eq tokens.length tokens le_rfl heven [] none
    have hemit := emitKvMap_zadd_eq
      (Redis.kvFold [] ((Redis.pairsOf tokens).map Prod.swap))
      { key := key, type := some .sortedset, subkeys := [], values := [] }
    have hnd : ((Redis.kvFold [] ((Redis.pairsOf tokens).map Prod.swap)).map
        Prod.fst).Nodup := nodup_kvFold _ [] (by simp)
    have hlk : ∀ member,
        (Redis.kvFold [] ((Redis.pairsOf tokens).map Prod.swap)).lookup member =
        Redis.lastOccurrence member ((Redis.pairsOf tokens).map Prod.swap) := by
      intro member
      rw [lookup_kvFold]
      simp [List.lookup]
    have hpar : ¬ (tokens.length % 2 = 1 ∨ tokens = []) := by
      rintro (h | h)
      · omega
      · exact hne0 (by simp [h])
    unfold Redis.parseZAdd Redis.parseHMSetLikeCommands
    simp [Bind.bind, Except.bind, Pure.pure, Except.pure, hok0, hbuild, hemit]
    rw [if_neg (by omega), if_neg hpar]
    refine ⟨_, rfl, ?_, hnd, hlk⟩
    rw [List.zip_map']

/-- Witness for C10 at concrete commands with duplicated fields and
members. -/
theorem hmset_like_last_occurrence_dedup_witness :
    (∃ req, Redis.parseHMSet ["HMSET", "k", "f", "1", "f", "2", "g", "3"] = .ok req ∧
      req.keyValue.subkeys.zip req.keyValue.values =
        (Redis.kvFold [] (Redis.pairsOf ["f", "1", "f", "2", "g", "3"])).map
          (fun q => (Redis.RedisSubKey.stringSubkey q.1, q.2)) ∧
      ((Redis.kvFold [] (Redis.pairsOf ["f", "1", "f", "2", "g", "3"])).map
        Prod.fst).Nodup ∧
      (∀ f, (Redis.kvFold [] (Redis.pairsOf ["f", "1", "f", "2", "g", "3"])).lookup f =
        Redis.lastOccurrence f (Redis.pairsOf ["f", "1", "f", "2", "g", "3"]))) ∧
    (∃ req, Redis.parseTsAdd ["TSADD", "k", "10", "a", "10", "b"] 0 = .ok req ∧
      req.keyValue.subkeys.zip req.keyValue.values =
        (Redis.kvFold [] (Redis.pairsOf ["10", "a", "10", "b"])).map
          (fun q => (Redis.RedisSubKey.timestampSubkey (Redis.tsVal q.1), q.2)) ∧
      ((Redis.kvFold [] (Redis.pairsOf ["10", "a", "10", "b"])).map Prod.fst).Nodup ∧
      (∀ f, (Redis.kvFold [] (Redis.pairsOf ["10", "a", "10", "b"])).lookup f =
        Redis.lastOccurrence f (Redis.pairsOf ["10", "a", "10", "b"]))) ∧
    (∃ req, Redis.parseZAdd ["ZADD", "k", "1", "a", "2", "a"] = .ok req ∧
      req.keyValue.subkeys.zip req.keyValue.values =
        (Redis.kvFold [] ((Redis.pairsOf ["1", "a", "2", "a"]).map Prod.swap)).map
          (fun q => (Redis.RedisSubKey.doubleSubkey q.2, q.1)) ∧
      ((Redis.kvFold [] ((Redis.pairsOf ["1", "a", "2", "a"]).map Prod.swap)).map
        Prod.fst).Nodup ∧
      (∀ member,
        (Redis.kvFold [] ((Redis.pairsOf ["1", "a", "2", "a"]).map Prod.swap)).lookup
          member =
        Redis.lastOccurrence member ((Redis.pairsOf ["1", "a", "2", "a"]).map
          Prod.swap))) := by
  refine ⟨?_, ?_, ?_⟩
  · exact hmset_like_last_occurrence_dedup.1 "k" ["f", "1", "f", "2", "g", "3"]
      (by decide) (by decide)
  · exact hmset_like_last_occurrence_dedup.2.1 "k" ["10", "a", "10", "b"] 0
      (by decide) (by decide) (by decide) (by decide)
  · exact hmset_like_last_occurrence_dedup.2.2 "k" ["1", "a", "2", "a"]
      (by decide) (by decide)
      (by
        intro t ht
        simp at ht
        subst ht
        decide)
